import Mathlib

/-!
# buda: request signing and paginated fetching

A shallow embedding of `buda.go` (package `buda`).  Go strings are modelled by
`String` (valid UTF-8 text); `[]byte` values are lists of natural numbers below 256;
Go `int`/`int64` values are integers with explicit wrapping modulo `2 ^ 64`.
Library routines the client calls (`strings.Join`, `encoding/hex`, `encoding/base64`,
`crypto/hmac`, `crypto/sha512`, `strconv.FormatInt`, `fmt.Sprintf`, `net/http` headers)
are embedded from their Go definitions.
-/

namespace Buda

/-! ## Bytes and strings -/

/-- UTF-8 bytes of one code point, as produced by the conversion `[]byte(s)`. -/
def utf8EncodeChar (c : Char) : List Nat :=
  let v := c.toNat
  if v < 0x80 then [v]
  else if v < 0x800 then [0xC0 + v / 64, 0x80 + v % 64]
  else if v < 0x10000 then [0xE0 + v / 4096, 0x80 + v / 64 % 64, 0x80 + v % 64]
  else [0xF0 + v / 262144, 0x80 + v / 4096 % 64, 0x80 + v / 64 % 64, 0x80 + v % 64]

/-- The conversion `[]byte(s)`. -/
def toBytes (s : String) : List Nat :=
  s.data.flatMap utf8EncodeChar

/-- Go `strings.Join(elems, sep)`. -/
def Join : List String → String → String
  | [], _ => ""
  | [a], _ => a
  | a :: rest, sep => rest.foldl (fun acc s => acc ++ sep ++ s) a

/-- The parts written one after another with exactly one space between neighbours. -/
def joinWithSpace : List String → String
  | [] => ""
  | [a] => a
  | a :: b :: rest => a ++ " " ++ joinWithSpace (b :: rest)

/-! ## encoding/hex and encoding/base64 -/

/-- Go `hextable` of `encoding/hex`. -/
def hextable : List Char := "0123456789abcdef".data

/-- Go `hex.EncodeToString`: two table characters per byte, `v>>4` then `v&0x0f`. -/
def hexEncodeToString (src : List Nat) : String :=
  String.mk (src.flatMap fun v => [hextable.getD (v >>> 4) '0', hextable.getD (v &&& 0x0f) '0'])

/-- The alphabet `encodeStd` of `encoding/base64`. -/
def encodeStd : List Char :=
  "ABCDEFGHIJKLMNOPQRSTUVWXYZabcdefghijklmnopqrstuvwxyz0123456789+/".data

/-- One output character of the standard base64 alphabet. -/
def b64char (i : Nat) : Char := encodeStd.getD i 'A'

/-- The encoder loop of `base64.StdEncoding.Encode` (padding character `=`). -/
def base64Chars : List Nat → List Char
  | a :: b :: c :: rest =>
      let val := a <<< 16 ||| b <<< 8 ||| c
      b64char (val >>> 18 &&& 0x3F) :: b64char (val >>> 12 &&& 0x3F) ::
        b64char (val >>> 6 &&& 0x3F) :: b64char (val &&& 0x3F) :: base64Chars rest
  | [a, b] =>
      let val := a <<< 16 ||| b <<< 8
      [b64char (val >>> 18 &&& 0x3F), b64char (val >>> 12 &&& 0x3F),
        b64char (val >>> 6 &&& 0x3F), '=']
  | [a] =>
      let val := a <<< 16
      [b64char (val >>> 18 &&& 0x3F), b64char (val >>> 12 &&& 0x3F), '=', '=']
  | [] => []

/-- Go `base64.StdEncoding.EncodeToString`. -/
def base64EncodeToString (src : List Nat) : String :=
  String.mk (base64Chars src)

/-! ## crypto/sha512 (SHA-384) -/

/-- Addition of two `uint64` values. -/
def add64 (a b : Nat) : Nat := (a + b) % 2 ^ 64

/-- Rotation to the right, `bits.RotateLeft64(x, -k)`. -/
def rotr64 (x k : Nat) : Nat := ((x >>> k) ||| (x <<< (64 - k))) % 2 ^ 64

/-- Bitwise complement of a `uint64`. -/
def not64 (x : Nat) : Nat := x ^^^ 0xFFFFFFFFFFFFFFFF

/-- The round constants `_K` of `crypto/sha512`. -/
def _K : List Nat := [
  0x428a2f98d728ae22, 0x7137449123ef65cd, 0xb5c0fbcfec4d3b2f, 0xe9b5dba58189dbbc,
  0x3956c25bf348b538, 0x59f111f1b605d019, 0x923f82a4af194f9b, 0xab1c5ed5da6d8118,
  0xd807aa98a3030242, 0x12835b0145706fbe, 0x243185be4ee4b28c, 0x550c7dc3d5ffb4e2,
  0x72be5d74f27b896f, 0x80deb1fe3b1696b1, 0x9bdc06a725c71235, 0xc19bf174cf692694,
  0xe49b69c19ef14ad2, 0xefbe4786384f25e3, 0x0fc19dc68b8cd5b5, 0x240ca1cc77ac9c65,
  0x2de92c6f592b0275, 0x4a7484aa6ea6e483, 0x5cb0a9dcbd41fbd4, 0x76f988da831153b5,
  0x983e5152ee66dfab, 0xa831c66d2db43210, 0xb00327c898fb213f, 0xbf597fc7beef0ee4,
  0xc6e00bf33da88fc2, 0xd5a79147930aa725, 0x06ca6351e003826f, 0x142929670a0e6e70,
  0x27b70a8546d22ffc, 0x2e1b21385c26c926, 0x4d2c6dfc5ac42aed, 0x53380d139d95b3df,
  0x650a73548baf63de, 0x766a0abb3c77b2a8, 0x81c2c92e47edaee6, 0x92722c851482353b,
  0xa2bfe8a14cf10364, 0xa81a664bbc423001, 0xc24b8b70d0f89791, 0xc76c51a30654be30,
  0xd192e819d6ef5218, 0xd69906245565a910, 0xf40e35855771202a, 0x106aa07032bbd1b8,
  0x19a4c116b8d2d0c8, 0x1e376c085141ab53, 0x2748774cdf8eeb99, 0x34b0bcb5e19b48a8,
  0x391c0cb3c5c95a63, 0x4ed8aa4ae3418acb, 0x5b9cca4f7763e373, 0x682e6ff3d6b2b8a3,
  0x748f82ee5defb2fc, 0x78a5636f43172f60, 0x84c87814a1f0ab72, 0x8cc702081a6439ec,
  0x90befffa23631e28, 0xa4506cebde82bde9, 0xbef9a3f7b2c67915, 0xc67178f2e372532b,
  0xca273eceea26619c, 0xd186b8c721c0c207, 0xeada7dd6cde0eb1e, 0xf57d4f7fee6ed178,
  0x06f067aa72176fba, 0x0a637dc5a2c898a6, 0x113f9804bef90dae, 0x1b710b35131c471b,
  0x28db77f523047d84, 0x32caab7b40c72493, 0x3c9ebe0a15c9bebc, 0x431d67c49c100d4c,
  0x4cc5d4becb3e42b6, 0x597f299cfc657e2a, 0x5fcb6fab3ad6faec, 0x6c44198c4a475817]

/-- The eight chaining words `h[0..7]` of a `digest`. -/
structure digest where
  h0 : Nat
  h1 : Nat
  h2 : Nat
  h3 : Nat
  h4 : Nat
  h5 : Nat
  h6 : Nat
  h7 : Nat
deriving DecidableEq, Repr

/-- Initial chaining value of SHA-384 (`init0_384` .. `init7_384`). -/
def init384 : digest :=
  ⟨0xcbbb9d5dc1059ed8, 0x629a292a367cd507, 0x9159015a3070dd17, 0x152fecd8f70e5939,
   0x67332667ffc00b31, 0x8eb44a8768581511, 0xdb0c2e0d64f98fa7, 0x47b5481dbefa4fa4⟩

/-- Big-endian `uint64` from eight bytes. -/
def be64 (p : List Nat) : Nat :=
  (p.take 8).foldl (fun acc b => acc * 256 + b) 0

/-- The first sixteen schedule words: the block read as big-endian `uint64`s. -/
def blockWords (p : List Nat) : List Nat :=
  (List.range 16).map fun i => be64 (p.drop (i * 8))

/-- Schedule words 16..79 of `blockGeneric`, appended one at a time. -/
def extendSchedule : Nat → List Nat → List Nat
  | 0, w => w
  | n + 1, w =>
      let i := w.length
      let v1 := w.getD (i - 2) 0
      let t1 := rotr64 v1 19 ^^^ rotr64 v1 61 ^^^ (v1 >>> 6)
      let v2 := w.getD (i - 15) 0
      let t2 := rotr64 v2 1 ^^^ rotr64 v2 8 ^^^ (v2 >>> 7)
      extendSchedule n (w ++ [add64 (add64 (add64 t1 (w.getD (i - 7) 0)) t2) (w.getD (i - 16) 0)])

/-- One round of the compression loop of `blockGeneric`. -/
def round (s : digest) (kw : Nat × Nat) : digest :=
  let t1 := add64 (add64 (add64 (add64 s.h7
    (rotr64 s.h4 14 ^^^ rotr64 s.h4 18 ^^^ rotr64 s.h4 41))
    ((s.h4 &&& s.h5) ^^^ (not64 s.h4 &&& s.h6))) kw.1) kw.2
  let t2 := add64 (rotr64 s.h0 28 ^^^ rotr64 s.h0 34 ^^^ rotr64 s.h0 39)
    ((s.h0 &&& s.h1) ^^^ (s.h0 &&& s.h2) ^^^ (s.h1 &&& s.h2))
  ⟨add64 t1 t2, s.h0, s.h1, s.h2, add64 s.h3 t1, s.h4, s.h5, s.h6⟩

/-- Go `blockGeneric` on one 128-byte chunk. -/
def block (d : digest) (p : List Nat) : digest :=
  let w := extendSchedule 64 (blockWords p)
  let s := (_K.zip w).foldl round d
  ⟨add64 d.h0 s.h0, add64 d.h1 s.h1, add64 d.h2 s.h2, add64 d.h3 s.h3,
   add64 d.h4 s.h4, add64 d.h5 s.h5, add64 d.h6 s.h6, add64 d.h7 s.h7⟩

/-- Go `blockGeneric` over `n` consecutive chunks. -/
def blocks : Nat → digest → List Nat → digest
  | 0, d, _ => d
  | n + 1, d, p => blocks n (block d (p.take 128)) (p.drop 128)

/-- Big-endian bytes of a `uint64` (`binary.BigEndian.PutUint64`). -/
def putUint64 (x : Nat) : List Nat :=
  [x >>> 56 % 256, x >>> 48 % 256, x >>> 40 % 256, x >>> 32 % 256,
   x >>> 24 % 256, x >>> 16 % 256, x >>> 8 % 256, x % 256]

/-- The padding appended by `checkSum`: `0x80`, zeros up to 112 modulo 128, then the
bit length as sixteen big-endian bytes whose upper eight are zero. -/
def padding (len : Nat) : List Nat :=
  let t := len % 128
  let zeros := if t < 112 then 111 - t else 128 + 111 - t
  0x80 :: List.replicate zeros 0 ++ putUint64 0 ++ putUint64 (len <<< 3 % 2 ^ 64)

/-- Go `sha512.Sum384`: the first six chaining words after the padded message. -/
def sum384 (msg : List Nat) : List Nat :=
  let p := msg ++ padding msg.length
  let d := blocks (p.length / 128) init384 p
  putUint64 d.h0 ++ putUint64 d.h1 ++ putUint64 d.h2 ++
    putUint64 d.h3 ++ putUint64 d.h4 ++ putUint64 d.h5

/-- A `hash.Hash`: its digest function, its block size, and the bytes written so far. -/
structure Hash where
  sum : List Nat → List Nat
  blockSize : Nat
  written : List Nat

/-- Go `sha512.New384()`. -/
def New384 : Hash := ⟨sum384, 128, []⟩

/-- Method `Write` of `hash.Hash`. -/
def Hash.Write (h : Hash) (p : List Nat) : Hash := { h with written := h.written ++ p }

/-- Method `Sum` of `hash.Hash`: appends the digest of what was written to `b`. -/
def Hash.Sum (h : Hash) (b : List Nat) : List Nat := b ++ h.sum h.written

/-- Method `Reset` of `hash.Hash`. -/
def Hash.Reset (h : Hash) : Hash := { h with written := [] }

/-- Method `BlockSize` of `hash.Hash`. -/
def Hash.BlockSize (h : Hash) : Nat := h.blockSize

/-! ## crypto/hmac -/

/-- Go built-in `copy(dst, src)`. -/
def copySlice (dst src : List Nat) : List Nat :=
  src.take dst.length ++ dst.drop src.length

/-- The `hmac` struct of `crypto/hmac`. -/
structure HMAC where
  opad : List Nat
  ipad : List Nat
  outer : Hash
  inner : Hash

/-- Go `hmac.New(h, key)`. -/
def hmacNew (h : Hash) (key : List Nat) : HMAC :=
  let outer := h
  let inner := h
  let blocksize := inner.BlockSize
  let ipad := List.replicate blocksize 0
  let opad := List.replicate blocksize 0
  let outer := if key.length > blocksize then outer.Write key else outer
  let key := if key.length > blocksize then outer.Sum [] else key
  let ipad := (copySlice ipad key).map (· ^^^ 0x36)
  let opad := (copySlice opad key).map (· ^^^ 0x5c)
  ⟨opad, ipad, outer, inner.Write ipad⟩

/-- Method `Write` of `hmac`. -/
def HMAC.Write (h : HMAC) (p : List Nat) : HMAC :=
  { h with inner := h.inner.Write p }

/-- Method `Sum` of `hmac`. -/
def HMAC.Sum (h : HMAC) (b : List Nat) : List Nat :=
  let origLen := b.length
  let b1 := h.inner.Sum b
  let outer := h.outer.Reset
  let outer := outer.Write h.opad
  let outer := outer.Write (b1.drop origLen)
  outer.Sum (b1.take origLen)

/-- HMAC as RFC 2104 words it, for a hash `H` of block size `B`: the key is hashed when
longer than a block, padded with zeros to a block, and the digest is
`H((K xor opad) || H((K xor ipad) || text))`. -/
def hmacRFC (H : List Nat → List Nat) (B : Nat) (key text : List Nat) : List Nat :=
  let k0 := if key.length > B then H key else key
  let k := k0 ++ List.replicate (B - k0.length) 0
  H (k.map (· ^^^ 0x5c) ++ H (k.map (· ^^^ 0x36) ++ text))

/-- HMAC-SHA384. -/
def hmacSHA384 (key text : List Nat) : List Nat :=
  hmacRFC sum384 128 key text

/-! ## The client -/

/-- The credentials of `APIClient` (the `*http.Client` carries no data used here). -/
structure APIClient where
  Key : String
  Secret : String
deriving DecidableEq, Repr

/-- Go `(*APIClient).SignRequest`. -/
def SignRequest (client : APIClient) (params : List String) : String :=
  let h := hmacNew New384 (toBytes client.Secret)
  let h := h.Write (toBytes (Join params " "))
  hexEncodeToString (h.Sum [])

/-- Lower-case hexadecimal digit of a value below sixteen. -/
def lowerHexDigit (d : Nat) : Char :=
  if d < 10 then Char.ofNat (48 + d) else Char.ofNat (87 + d)

/-- Lower-case hexadecimal text of a byte sequence, high nibble first. -/
def lowerHex (bs : List Nat) : String :=
  String.mk (bs.flatMap fun b => [lowerHexDigit (b / 16), lowerHexDigit (b % 16)])


/-! ## Integers and their decimal text -/

/-- Wrapping of an integer into the range of `int64` (two's complement). -/
def wrapInt64 (x : Int) : Int := (x + 2 ^ 63) % 2 ^ 64 - 2 ^ 63

/-- The digit loop of `strconv.formatBits` in base ten; the first argument bounds the
number of iterations. -/
def formatBits : Nat → Nat → List Char → List Char
  | 0, u, acc => Char.ofNat (48 + u % 10) :: acc
  | fuel + 1, u, acc =>
      if u ≥ 10 then formatBits fuel (u / 10) (Char.ofNat (48 + u % 10) :: acc)
      else Char.ofNat (48 + u) :: acc

/-- Go `strconv.FormatInt(i, 10)`. -/
def FormatInt (i : Int) : String :=
  if i < 0 then String.mk ('-' :: formatBits i.natAbs i.natAbs [])
  else String.mk (formatBits i.natAbs i.natAbs [])

/-- The value a string of decimal digits denotes. -/
def decimalValue (cs : List Char) : Nat :=
  cs.foldl (fun acc c => acc * 10 + (c.toNat - 48)) 0

/-! ## net/http requests -/

/-- A Go `error` value. -/
structure GoError where
  msg : String
deriving DecidableEq, Repr

/-- Go `validHeaderFieldByte`: the token characters of RFC 7230. -/
def validHeaderFieldByte (c : Char) : Bool :=
  c.isAlphanum || "!#$%&*+-.^_|~".data.contains c || c.toNat == 39 || c.toNat == 96

/-- The rewriting loop of `canonicalMIMEHeaderKey`: upper case at the start and after
each dash, lower case elsewhere. -/
def canonicalLoop : Bool → List Char → List Char
  | _, [] => []
  | upper, c :: cs =>
      let c1 := if upper && c.isLower then c.toUpper
        else if !upper && c.isUpper then c.toLower else c
      c1 :: canonicalLoop (c1 == '-') cs

/-- Go `textproto.CanonicalMIMEHeaderKey`: a key holding a byte that is no token
character is returned unchanged. -/
def CanonicalMIMEHeaderKey (s : String) : String :=
  if s.data.all validHeaderFieldByte then String.mk (canonicalLoop true s.data) else s

/-- Go `http.Header`, a map from canonical keys to value lists. -/
abbrev Header := List (String × List String)

/-- Method `Set` of `http.Header`. -/
def Header.Set (h : Header) (key value : String) : Header :=
  (CanonicalMIMEHeaderKey key, [value]) ::
    h.filter (fun kv => kv.1 != CanonicalMIMEHeaderKey key)

/-- Method `Get` of `http.Header`: the first value stored under the key, or `""`. -/
def Header.Get (h : Header) (key : String) : String :=
  match h.lookup (CanonicalMIMEHeaderKey key) with
  | some (v :: _) => v
  | _ => ""

/-- A body stream (`io.ReadCloser`): the bytes it still yields and the error it reports
after them (`none` for a clean end of stream). -/
structure Reader where
  pending : List Nat
  fail : Option GoError
deriving DecidableEq, Repr

/-- Go `ioutil.ReadAll`: the bytes read, the error, and the stream as it is left. -/
def ReadAll (r : Reader) : List Nat × Option GoError × Reader :=
  (r.pending, r.fail, { r with pending := [] })

/-- The fields of `*http.Request` the client touches; `RequestURI` is the value of
`request.URL.RequestURI()` and `Body` is `none` for a nil body. -/
structure Request where
  Method : String
  RequestURI : String
  Body : Option Reader
  Header : Header
deriving DecidableEq, Repr

/-- How a call of `AuthenticatedRequest` ends, with the request object as the call
leaves it: a nil-body dereference, `return nil, err`, or `return request, nil`. -/
inductive AuthOutcome
  | panicked
  | failed (request : Request) (err : GoError)
  | returned (request : Request)
deriving DecidableEq, Repr

/-- The nonce `time.Now().UTC().UnixNano()*1E6` of `AuthenticatedRequest`, for the clock
reading `unixNano`, in `int64` arithmetic. -/
def nonce (unixNano : Int) : Int := wrapInt64 (unixNano * 1000000)

/-- The three `request.Header.Set` calls closing `AuthenticatedRequest`. -/
def setAuthHeaders (client : APIClient) (request : Request) (timestamp signature : String) :
    Request :=
  let header := request.Header.Set "X-SBTC-APIKEY" client.Key
  let header := header.Set "X-SBTC-NONCE" timestamp
  let header := header.Set "X-SBTC-SIGNATURE" signature
  { request with Header := header }

/-- Go `(*APIClient).AuthenticatedRequest`, with the clock reading as an argument. -/
def AuthenticatedRequest (client : APIClient) (unixNano : Int) (request : Request) :
    AuthOutcome :=
  let timestamp := FormatInt (nonce unixNano)
  if request.Method = "POST" then
    match request.Body with
    | none => .panicked
    | some stream =>
      match ReadAll stream with
      | (body, err, stream1) =>
        let request := { request with Body := some stream1 }
        match err with
        | some e => .failed request e
        | none =>
          let signature := SignRequest client
            [request.Method, request.RequestURI, base64EncodeToString body, timestamp]
          .returned (setAuthHeaders client request timestamp signature)
  else if request.Method = "GET" then
    let signature := SignRequest client [request.Method, request.RequestURI, timestamp]
    .returned (setAuthHeaders client request timestamp signature)
  else
    .returned (setAuthHeaders client request timestamp "")

/-! ## The paginated fetch

`GetOrdersByMarket`, `GetOrdersByMarketAndState`, `GetWithdrawalsByCurrency`,
`GetDepositsByCurrency`, `GetDepositsByCurrencyAndState` and
`GetWithdrawalsByCurrencyAndState` share one body up to the item type and the resource
string.  The goroutines and the collector are embedded as a transition system over the
variables of that body, driven by a schedule that picks the thread making the next step;
`json.Unmarshal` into the shared envelope is one step of the goroutine performing it. -/

/-- Go `Metadata`. -/
structure Metadata where
  CurrentPage : Int
  TotalCount : Int
  TotalPages : Int
deriving DecidableEq, Repr

set_option linter.dupNamespace false in
/-- Go `Orders` (likewise `Deposits`, `Withdrawals`): the items and the page metadata. -/
structure Orders (α : Type) where
  Orders : List α
  Meta : Metadata
deriving DecidableEq, Repr

/-- What a response body holds for `json.Unmarshal`: a key that is absent leaves the
field of the target as it was. -/
structure Decoded (α : Type) where
  orders : Option (List α)
  current_page : Option Int
  total_count : Option Int
  total_pages : Option Int
deriving DecidableEq, Repr

/-- The effect of `json.Unmarshal(data, &orders)` on the target. -/
def Unmarshal {α : Type} (d : Decoded α) (v : Orders α) : Orders α :=
  { Orders := d.orders.getD v.Orders
    Meta :=
      { CurrentPage := d.current_page.getD v.Meta.CurrentPage
        TotalCount := d.total_count.getD v.Meta.TotalCount
        TotalPages := d.total_pages.getD v.Meta.TotalPages } }

/-- The outcome of one `client.Get` followed by `json.Unmarshal`: the request fails, or a
body arrives which `Unmarshal` stores, returning `err`. -/
inductive Reply (α : Type)
  | getError (err : GoError)
  | body (d : Decoded α) (err : Option GoError)
deriving DecidableEq, Repr

/-- A completion signal: a value received from `resc` or from `errc`. -/
inductive Signal (α : Type)
  | res (items : List α)
  | err (e : GoError)
deriving DecidableEq, Repr

/-- Where a goroutine `go func(i int)` stands: not yet run; `Unmarshal` returned nil and
`orders.Orders` is about to be evaluated; blocked sending on `resc` or on `errc`; ended. -/
inductive Task (α : Type)
  | start (i : Int)
  | decoded (i : Int)
  | sendRes (items : List α)
  | sendErr (e : GoError)
  | done
deriving DecidableEq, Repr

/-- Where the calling thread stands: at the test of the loop starting goroutines; about
to evaluate `orders.Meta.CurrentPage + 1` for the collector loop; at the test of the
collector loop; blocked in `select`; returned. -/
inductive Main (α : Type)
  | spawn (i : Int)
  | collectInit
  | collect (i : Int)
  | select (i : Int)
  | returned (ret : List α) (err : Option GoError)
deriving DecidableEq, Repr

/-- The variables of one call: the shared envelope `orders`, the accumulator `ret`, the
threads, and three logs (page numbers passed to `client.Get`, page numbers for which a
goroutine was started, signals the collector received). -/
structure State (α : Type) where
  orders : Orders α
  ret : List α
  main : Main α
  tasks : List (Task α)
  requests : List Int
  started : List Int
  consumed : List (Signal α)
deriving DecidableEq, Repr

/-- One choice of the scheduler: the calling thread, goroutine number `k`, or the
hand-over of goroutine `k`'s pending send to the collector's `select`. -/
inductive Act
  | main
  | task (k : Nat)
  | recv (k : Nat)
deriving DecidableEq, Repr

/-- One step of the calling thread. -/
def stepMain {α : Type} (s : State α) : State α :=
  match s.main with
  | .spawn i =>
      if i ≤ s.orders.Meta.TotalPages then
        { s with tasks := s.tasks ++ [.start i], started := s.started ++ [i],
                 main := .spawn (wrapInt64 (i + 1)) }
      else { s with main := .collectInit }
  | .collectInit => { s with main := .collect (wrapInt64 (s.orders.Meta.CurrentPage + 1)) }
  | .collect i =>
      if i ≤ s.orders.Meta.TotalPages then { s with main := .select i }
      else { s with main := .returned s.ret none }
  | .select _ => s
  | .returned _ _ => s

/-- One step of goroutine `k`: fetch and decode page `i` into the shared envelope, or
evaluate `orders.Orders` for the send on `resc`. -/
def stepTask {α : Type} (serve : Int → Reply α) (s : State α) (k : Nat) : State α :=
  match s.tasks.get? k with
  | some (.start i) =>
      match serve i with
      | .getError e =>
          { s with tasks := s.tasks.set k (.sendErr e), requests := s.requests ++ [i] }
      | .body d (some e) =>
          { s with orders := Unmarshal d s.orders, tasks := s.tasks.set k (.sendErr e),
                   requests := s.requests ++ [i] }
      | .body d none =>
          { s with orders := Unmarshal d s.orders, tasks := s.tasks.set k (.decoded i),
                   requests := s.requests ++ [i] }
  | some (.decoded _) => { s with tasks := s.tasks.set k (.sendRes s.orders.Orders) }
  | _ => s

/-- The collector's `select` receives what goroutine `k` is sending. -/
def stepRecv {α : Type} (s : State α) (k : Nat) : State α :=
  match s.main, s.tasks.get? k with
  | .select i, some (.sendRes res) =>
      { s with ret := s.ret ++ res, consumed := s.consumed ++ [.res res],
               tasks := s.tasks.set k .done, main := .collect (wrapInt64 (i + 1)) }
  | .select _, some (.sendErr e) =>
      { s with consumed := s.consumed ++ [.err e], tasks := s.tasks.set k .done,
               main := .returned [] (some e) }
  | _, _ => s

/-- One step of the system. -/
def step {α : Type} (serve : Int → Reply α) (s : State α) : Act → State α
  | .main => stepMain s
  | .task k => stepTask serve s k
  | .recv k => stepRecv s k

/-- The zero value of `var orders Orders`. -/
def zeroOrders {α : Type} : Orders α := ⟨[], ⟨0, 0, 0⟩⟩

/-- The sequential head of the body: the request for page 1, its decoding into the zero
envelope, `ret = append(ret, orders.Orders...)` and the test `TotalPages > 1`. -/
def firstPage {α : Type} (first : Reply α) : State α :=
  match first with
  | .getError e => ⟨zeroOrders, [], .returned [] (some e), [], [1], [], []⟩
  | .body d (some e) => ⟨Unmarshal d zeroOrders, [], .returned [] (some e), [], [1], [], []⟩
  | .body d none =>
      let orders := Unmarshal d zeroOrders
      let ret := [] ++ orders.Orders
      if orders.Meta.TotalPages > 1 then
        ⟨orders, ret, .spawn (wrapInt64 (orders.Meta.CurrentPage + 1)), [], [1], [], []⟩
      else ⟨orders, ret, .returned ret none, [], [1], [], []⟩

/-- Go `(*APIClient).GetOrdersByMarket` and its siblings: `first` is the outcome of the
request for page 1, `serve i` the outcome of the request a goroutine makes for page `i`,
and `sched` the schedule. -/
def GetOrdersByMarket {α : Type} (first : Reply α) (serve : Int → Reply α)
    (sched : List Act) : State α :=
  sched.foldl (step serve) (firstPage first)

/-- The integers from `a` to `b`, both included. -/
def pagesFromTo (a b : Int) : List Int :=
  (List.range (b + 1 - a).toNat).map fun (k : Nat) => a + (k : Int)

/-- The calling thread has left the loop that starts goroutines. -/
def pastSpawn {α : Type} : Main α → Bool
  | .spawn _ => false
  | _ => true

/-- An error signal is consumed only by returning it, and an error is returned only
with a nil sequence. -/
def FailFast {α : Type} (s : State α) : Prop :=
  (∀ e, Signal.err e ∈ s.consumed → s.main = .returned [] (some e)) ∧
    (∀ items e, s.main = .returned items (some e) → items = [])

/-- The invariant of the goroutine-starting loop when the first page reported
`current_page = c` and the envelope keeps `total_pages = N`: the pages started so far
are the run from `c + 1` up to the loop counter, and the whole run once the loop is left. -/
def SpawnInv {α : Type} (c N : Int) (s : State α) : Prop :=
  s.orders.Meta.TotalPages = N ∧
    match s.main with
    | .spawn i => c + 1 ≤ i ∧ (i ≤ N + 1 ∨ i = c + 1) ∧ s.started = pagesFromTo (c + 1) (i - 1)
    | _ => s.started = pagesFromTo (c + 1) N

/-! ## fmt.Sprintf and the resource strings -/

/-- An operand of `fmt.Sprintf`: a `string` or an `int`. -/
inductive Arg
  | str (s : String)
  | int (i : Int)
deriving DecidableEq, Repr

/-- Go `printArg` for an operand and a verb without flags, width or precision; `none`
for verbs this embedding leaves out. -/
def printArg : Arg → Char → Option String
  | .str s, 's' => some s
  | .str s, 'v' => some s
  | .str s, 'd' => some ("%!d(string=" ++ s ++ ")")
  | .int i, 'd' => some (FormatInt i)
  | .int i, 'v' => some (FormatInt i)
  | .int i, 's' => some ("%!s(int=" ++ FormatInt i ++ ")")
  | _, _ => none

/-- The text `doPrintf` appends for operands no verb consumed. -/
def extraArgs : List Arg → String
  | [] => ""
  | a => "%!(EXTRA " ++ ", ".intercalate (a.map fun x =>
      match x with
      | .str s => "string=" ++ s
      | .int i => "int=" ++ FormatInt i) ++ ")"

/-- Where `doPrintf` stands in the format: in literal text; after `%`, reading flags
(`dirty` once one was read); reading width digits; just after the `.` of a precision;
reading precision digits. -/
inductive Stage
  | text
  | flags (dirty : Bool)
  | width (n : Nat)
  | precStart
  | prec (n : Nat)
deriving DecidableEq, Repr

/-- Go `(*pp).doPrintf`, one format character at a time, for `string` and `int` operands.
The result is `none` where the format leaves the embedded part of `fmt`: an argument
index `[n]`, a `*` width or precision, a number above `1e6`, an operand printed under
flags, width or precision, or a verb `printArg` leaves out. -/
def doPrintf : List Char → Stage → List Arg → String → Option String
  | [], stage, a, buf =>
      match stage with
      | .text => some (buf ++ extraArgs a)
      | _ => some (buf ++ "%!(NOVERB)" ++ extraArgs a)
  | c :: cs, stage, a, buf =>
      let verb (dirty : Bool) : Option String :=
        if c = '%' then doPrintf cs .text a (buf.push '%')
        else match a with
          | [] => doPrintf cs .text [] (buf ++ "%!" ++ String.singleton c ++ "(MISSING)")
          | x :: rest =>
              if dirty then none
              else match printArg x c with
                | some s => doPrintf cs .text rest (buf ++ s)
                | none => none
      match stage with
      | .text =>
          if c = '%' then doPrintf cs (.flags false) a buf
          else doPrintf cs .text a (buf.push c)
      | .flags dirty =>
          if c = '#' ∨ c = '0' ∨ c = '+' ∨ c = '-' ∨ c = ' ' then doPrintf cs (.flags true) a buf
          else if c = '[' ∨ c = '*' then none
          else if c.isDigit then doPrintf cs (.width (c.toNat - 48)) a buf
          else if c = '.' then doPrintf cs .precStart a buf
          else verb dirty
      | .width n =>
          if c = '[' then none
          else if c.isDigit then
            if n > 1000000 then none else doPrintf cs (.width (n * 10 + (c.toNat - 48))) a buf
          else if c = '.' then doPrintf cs .precStart a buf
          else verb true
      | .precStart =>
          if c = '[' ∨ c = '*' then none
          else if c.isDigit then doPrintf cs (.prec (c.toNat - 48)) a buf
          else verb true
      | .prec n =>
          if c = '[' then none
          else if c.isDigit then
            if n > 1000000 then none else doPrintf cs (.prec (n * 10 + (c.toNat - 48))) a buf
          else verb true

/-- Go `fmt.Sprintf(format, a...)`. -/
def Sprintf (format : String) (a : List Arg) : Option String :=
  doPrintf format.data .text a ""

/-- Go constant `OrdersEndpoint`. -/
def OrdersEndpoint : String := "/markets/%s/orders"

/-- Go constant `WithdrawalsEndpoint`. -/
def WithdrawalsEndpoint : String := "/currencies/%s/withdrawals"

/-- Go constant `DepositsEndpoint`. -/
def DepositsEndpoint : String := "/currencies/%s/deposits"

/-- Go constant `ElementsPerPage`. -/
def ElementsPerPage : String := "300"

/-- The resource of the first request of a state-filtered fetcher:
`fmt.Sprintf(endpoint + "?page=1&per=" + ElementsPerPage + "&state=" + state, id)`. -/
def firstPageResourceByState (endpoint id state : String) : Option String :=
  Sprintf (endpoint ++ "?page=1&per=" ++ ElementsPerPage ++ "&state=" ++ state) [.str id]

/-- The resource a goroutine of a state-filtered fetcher requests for page `i`:
`fmt.Sprintf(endpoint + fmt.Sprintf("?page=%d", i) + "&per=" + ElementsPerPage
+ "&state=" + state, id)`. -/
def pageResourceByState (endpoint id state : String) (i : Int) : Option String :=
  match Sprintf "?page=%d" [.int i] with
  | some page =>
      Sprintf (endpoint ++ page ++ "&per=" ++ ElementsPerPage ++ "&state=" ++ state) [.str id]
  | none => none

/-- The expression `GetTradesByMarket` uses for its filter, which appends the caller's
value after formatting: `fmt.Sprintf(MarketTradesEndpoint, marketId) + "?timestamp=" + timestamp`. -/
def tradesResource (marketId timestamp : String) : Option String :=
  match Sprintf "/markets/%s/trades" [.str marketId] with
  | some r => some (r ++ "?timestamp=" ++ timestamp)
  | none => none

/-- The pages of the goroutines that have not yet made their request. -/
def pendingPages {α : Type} (tasks : List (Task α)) : List Int :=
  tasks.filterMap fun t =>
    match t with
    | .start i => some i
    | _ => none

/-- The request log is page 1 followed by the pages goroutines have fetched, and these
together with the pages still to be fetched are the pages started. -/
def RequestInv {α : Type} (s : State α) : Prop :=
  ∃ fetched, s.requests = 1 :: fetched ∧ List.Perm (fetched ++ pendingPages s.tasks) s.started

/-- A goroutine that has made its request. -/
def Task.fetched {α : Type} : Task α → Bool
  | .start _ => false
  | _ => true

/-! ## The transport: `Get` -/

/-- Go constant `BaseURL`. -/
def BaseURL : String := "https://www.buda.com/api/v2"

/-- Go `(*APIClient).FormatResource`: `fmt.Sprintf("%s%s", BaseURL, resource)`; the
format holds two plain `%s` verbs, for which `Sprintf` always yields a text. -/
def FormatResource (resource : String) : String :=
  (Sprintf "%s%s" [.str BaseURL, .str resource]).getD ""

/-- A value or a Go `error`. -/
inductive OrError (α : Type)
  | ok (value : α)
  | error (err : GoError)
deriving DecidableEq, Repr

/-- The fields of `*http.Response` in reach of `Get`. -/
structure Response where
  StatusCode : Int
  Body : Reader
deriving DecidableEq, Repr

/-- The two library calls of `Get` whose outcome comes from outside the program:
`parse url` is `url.Parse` inside `http.NewRequest` (an error, or the `RequestURI()` of
the parsed URL), and `Do url request` is `client.Client.Do` for the request built for
`url`. -/
structure Network where
  parse : String → OrError String
  Do : String → Request → OrError Response

/-- Go `http.NewRequest(method, url, nil)` for a valid method: no body, empty header. -/
def NewRequest (parse : String → OrError String) (method url : String) : OrError Request :=
  match parse url with
  | .error e => .error e
  | .ok uri => .ok ⟨method, uri, none, []⟩

/-- What a call of `Get` returns: a panic, or the pair `([]byte, error)` (nil bytes are
the empty list). -/
inductive GetResult
  | panicked
  | returned (body : List Nat) (err : Option GoError)
deriving DecidableEq, Repr

/-- A call of `Get`: the URL and request handed to `client.Client.Do`, if the call got
that far, and the result. -/
structure GetOutcome where
  sent : Option (String × Request)
  result : GetResult
deriving DecidableEq, Repr

/-- Go `(*APIClient).Get`, with the clock reading used when `priv` (the parameter
`private`) is set. -/
def Get (client : APIClient) (net : Network) (unixNano : Int) (resource : String)
    (priv : Bool) : GetOutcome :=
  let url := FormatResource resource
  match NewRequest net.parse "GET" url with
  | .error err => ⟨none, .returned [] (some err)⟩
  | .ok req =>
    match (if priv then AuthenticatedRequest client unixNano req else .returned req) with
    | .panicked => ⟨none, .panicked⟩
    | .failed _ err => ⟨none, .returned [] (some err)⟩
    | .returned req =>
      match net.Do url req with
      | .error err => ⟨some (url, req), .returned [] (some err)⟩
      | .ok response =>
        match ReadAll response.Body with
        | (_, some err, _) => ⟨some (url, req), .returned [] (some err)⟩
        | (body, none, _) => ⟨some (url, req), .returned body none⟩

/-- The network `net` with every status code replaced through `f`. -/
def Network.withStatus (net : Network) (f : Int → Int) : Network :=
  { parse := net.parse
    Do := fun url req =>
      match net.Do url req with
      | .error err => .error err
      | .ok response => .ok { response with StatusCode := f response.StatusCode } }

/-! ## Goroutines with an envelope of their own -/

/-- A goroutine step as the design describes it, for comparison with `stepTask`: the
response is decoded into an envelope local to the goroutine (a zero `Orders` of its own),
and the shared `orders` is neither written nor read. -/
def stepTaskLocalEnvelope {α : Type} (serve : Int → Reply α) (s : State α) (k : Nat) :
    State α :=
  match s.tasks.get? k with
  | some (.start i) =>
      match serve i with
      | .getError e =>
          { s with tasks := s.tasks.set k (.sendErr e), requests := s.requests ++ [i] }
      | .body _ (some e) =>
          { s with tasks := s.tasks.set k (.sendErr e), requests := s.requests ++ [i] }
      | .body d none =>
          { s with tasks := s.tasks.set k (.sendRes (Unmarshal d zeroOrders).Orders),
                   requests := s.requests ++ [i] }
  | _ => s

/-- One step of the system whose goroutines have an envelope of their own. -/
def stepLocalEnvelope {α : Type} (serve : Int → Reply α) (s : State α) : Act → State α
  | .main => stepMain s
  | .task k => stepTaskLocalEnvelope serve s k
  | .recv k => stepRecv s k

/-- The paginated fetch with goroutines that have an envelope of their own. -/
def GetOrdersByMarketLocalEnvelope {α : Type} (first : Reply α) (serve : Int → Reply α)
    (sched : List Act) : State α :=
  sched.foldl (stepLocalEnvelope serve) (firstPage first)

/-! ## Receive addresses -/

/-- Go constant `ReceiveAddressEndpoint`. -/
def ReceiveAddressEndpoint : String := "/currencies/%s/receive_addresses/%s"

/-- Wrapping of an integer into the range of `int32`, the conversion `rune(v)`. -/
def wrapInt32 (x : Int) : Int := (x + 2 ^ 31) % 2 ^ 32 - 2 ^ 31

/-- Go runtime `encoderune`: the bytes written for the rune `r`, with `i = uint32(r)`. -/
def encoderune (r : Int) : List Nat :=
  let i := (r % 2 ^ 32).toNat
  let three (r : Nat) : List Nat :=
    [0xE0 ||| (r >>> 12) % 256, 0x80 ||| ((r >>> 6) % 256 &&& 0x3F), 0x80 ||| (r % 256 &&& 0x3F)]
  if i ≤ 0x7F then [i % 256]
  else if i ≤ 0x7FF then [0xC0 ||| (i >>> 6) % 256, 0x80 ||| (i % 256 &&& 0x3F)]
  else if i > 0x10FFFF ∨ (0xD800 ≤ i ∧ i ≤ 0xDFFF) then three 0xFFFD
  else if i ≤ 0xFFFF then three i
  else
    [0xF0 ||| (i >>> 18) % 256, 0x80 ||| ((i >>> 12) % 256 &&& 0x3F),
      0x80 ||| ((i >>> 6) % 256 &&& 0x3F), 0x80 ||| (i % 256 &&& 0x3F)]

/-- Go runtime `intstring`, the bytes of the conversion `string(v)` of an integer. -/
def intstring (v : Int) : List Nat :=
  encoderune (if wrapInt32 v ≠ v then 0xFFFD else v)

/-- The conversion `string(v)` of an integer as a text: the one code point `v`, or
U+FFFD when `v` is no valid code point. -/
def runeString (v : Int) : String :=
  String.singleton
    (if 0 ≤ v ∧ v.toNat.isValidChar then Char.ofNat v.toNat else Char.ofNat 0xFFFD)

/-- The resource `GetReceiveAddresses(id, currency)` passes to `client.Get`:
`fmt.Sprintf(ReceiveAddressEndpoint, currency, string(id))`. -/
def receiveAddressResource (id : Int) (currency : String) : Option String :=
  Sprintf ReceiveAddressEndpoint [.str currency, .str (runeString id)]
/-! ## Signing: lemmas -/

theorem foldl_sep_acc (sep : String) (l : List String) (acc : String) :
    l.foldl (fun acc s => acc ++ sep ++ s) acc
      = acc ++ l.foldl (fun acc s => acc ++ sep ++ s) "" := by
  induction l generalizing acc with
  | nil => simp
  | cons x xs ih =>
    simp only [List.foldl_cons]
    rw [ih (acc ++ sep ++ x), ih ("" ++ sep ++ x)]
    simp [String.append_assoc]

theorem Join_cons_cons (a x : String) (xs : List String) :
    Join (a :: x :: xs) " " = a ++ " " ++ Join (x :: xs) " " := by
  cases xs with
  | nil => simp [Join]
  | cons y ys =>
    simp only [Join, List.foldl_cons]
    rw [foldl_sep_acc " " ys (a ++ " " ++ x ++ " " ++ y), foldl_sep_acc " " ys (x ++ " " ++ y)]
    simp [String.append_assoc]

theorem Join_space (parts : List String) : Join parts " " = joinWithSpace parts := by
  match parts with
  | [] => rfl
  | [a] => rfl
  | a :: b :: rest =>
    induction rest generalizing a b with
    | nil => rfl
    | cons x xs ih =>
      rw [Join_cons_cons, ih b x]
      rfl

theorem putUint64_length (x : Nat) : (putUint64 x).length = 8 := rfl

theorem putUint64_lt (x : Nat) : ∀ b ∈ putUint64 x, b < 256 := by
  intro b hb
  simp only [putUint64, List.mem_cons, List.mem_singleton, List.not_mem_nil, or_false] at hb
  rcases hb with h | h | h | h | h | h | h | h <;> subst h <;> exact Nat.mod_lt _ (by decide)

theorem sum384_length (msg : List Nat) : (sum384 msg).length = 48 := by
  simp [sum384, putUint64_length]

theorem sum384_lt (msg : List Nat) : ∀ b ∈ sum384 msg, b < 256 := by
  intro b hb
  simp only [sum384, List.mem_append] at hb
  rcases hb with ((((h | h) | h) | h) | h) | h <;> exact putUint64_lt _ b h

theorem copySlice_zeros (n : Nat) (key : List Nat) (h : key.length ≤ n) :
    copySlice (List.replicate n 0) key = key ++ List.replicate (n - key.length) 0 := by
  simp [copySlice, List.take_of_length_le h]

theorem hmacNew_pads (H : List Nat → List Nat) (B : Nat) (key : List Nat)
    (hH : ∀ m, (H m).length ≤ B) :
    ∃ k : List Nat, k = (if key.length > B then H key else key) ∧
      (hmacNew ⟨H, B, []⟩ key).opad = (k ++ List.replicate (B - k.length) 0).map (· ^^^ 0x5c) ∧
      (hmacNew ⟨H, B, []⟩ key).inner.written
        = (k ++ List.replicate (B - k.length) 0).map (· ^^^ 0x36) ∧
      (hmacNew ⟨H, B, []⟩ key).inner.sum = H ∧ (hmacNew ⟨H, B, []⟩ key).outer.sum = H := by
  refine ⟨_, rfl, ?_⟩
  by_cases hk : key.length > B
  · have hc := copySlice_zeros B (H key) (hH key)
    simp only [hmacNew, Hash.BlockSize, if_pos hk, Hash.Write, Hash.Sum, List.nil_append, hc,
      and_self]
  · have hc := copySlice_zeros B key (Nat.le_of_not_gt hk)
    simp only [hmacNew, Hash.BlockSize, if_neg hk, Hash.Write, List.nil_append, hc, and_self]

theorem hmac_eq_RFC (H : List Nat → List Nat) (B : Nat) (key text : List Nat)
    (hH : ∀ m, (H m).length ≤ B) :
    ((hmacNew ⟨H, B, []⟩ key).Write text).Sum [] = hmacRFC H B key text := by
  obtain ⟨k, hk, h1, h2, h3, h4⟩ := hmacNew_pads H B key hH
  simp only [HMAC.Write, HMAC.Sum, Hash.Write, Hash.Sum, Hash.Reset, List.length_nil,
    List.drop_zero, List.take_zero, List.nil_append, h1, h2, h3, h4, hmacRFC, hk]

theorem hmac_eq (key text : List Nat) :
    ((hmacNew New384 key).Write text).Sum [] = hmacSHA384 key text :=
  hmac_eq_RFC sum384 128 key text (fun m => by rw [sum384_length]; decide)

theorem hmacSHA384_length (key text : List Nat) : (hmacSHA384 key text).length = 48 := by
  unfold hmacSHA384 hmacRFC
  exact sum384_length _

theorem hmacSHA384_lt (key text : List Nat) : ∀ b ∈ hmacSHA384 key text, b < 256 := by
  unfold hmacSHA384 hmacRFC
  exact sum384_lt _

theorem hextable_digit : ∀ d, d < 16 → hextable.getD d '0' = lowerHexDigit d := by
  decide

theorem lowerHexDigit_mem : ∀ d, d < 16 → lowerHexDigit d ∈ "0123456789abcdef".data := by
  decide

theorem hexEncodeToString_eq (bs : List Nat) (h : ∀ b ∈ bs, b < 256) :
    hexEncodeToString bs = lowerHex bs := by
  unfold hexEncodeToString lowerHex
  congr 1
  induction bs with
  | nil => rfl
  | cons b rest ih =>
    have hb : b < 256 := h b (List.mem_cons_self _ _)
    have h1 : b >>> 4 = b / 16 := by rw [Nat.shiftRight_eq_div_pow]
    have h2 : b &&& 0x0f = b % 16 := Nat.and_pow_two_sub_one_eq_mod b 4
    have h3 : b / 16 < 16 := by omega
    have h4 : b % 16 < 16 := Nat.mod_lt _ (by decide)
    simp only [List.flatMap_cons, h1, h2, hextable_digit _ h3, hextable_digit _ h4]
    rw [ih (fun x hx => h x (List.mem_cons_of_mem _ hx))]

theorem lowerHex_length (bs : List Nat) : (lowerHex bs).length = 2 * bs.length := by
  unfold lowerHex
  show (List.flatMap _ _).length = _
  induction bs with
  | nil => rfl
  | cons b rest ih => simp only [List.flatMap_cons, List.length_append, ih, List.length_cons,
      List.length_nil]; omega

theorem lowerHex_chars (bs : List Nat) (h : ∀ b ∈ bs, b < 256) :
    ∀ c ∈ (lowerHex bs).data, c ∈ "0123456789abcdef".data := by
  intro c hc
  unfold lowerHex at hc
  simp only [List.mem_flatMap, List.mem_cons, List.mem_singleton, List.not_mem_nil,
    or_false] at hc
  obtain ⟨b, hb, h1 | h1⟩ := hc
  · subst h1
    exact lowerHexDigit_mem _ (by have := h b hb; omega)
  · subst h1
    exact lowerHexDigit_mem _ (Nat.mod_lt _ (by decide))

/-! ## Signing: the claim -/

/-- C1: for every list of parts and every secret, `SignRequest` is the lower-case
hexadecimal text of HMAC-SHA384, keyed with the secret, of the parts joined by exactly one
space; the result has 96 characters, each among `0-9a-f`. -/
theorem SignRequest_is_hex_hmac_sha384 (client : APIClient) (parts : List String) :
    SignRequest client parts
        = lowerHex (hmacSHA384 (toBytes client.Secret) (toBytes (joinWithSpace parts)))
      ∧ (SignRequest client parts).length = 96
      ∧ ∀ c ∈ (SignRequest client parts).data, c ∈ "0123456789abcdef".data := by
  have h : SignRequest client parts
      = lowerHex (hmacSHA384 (toBytes client.Secret) (toBytes (joinWithSpace parts))) := by
    unfold SignRequest
    simp only []
    rw [hmac_eq, Join_space, hexEncodeToString_eq _ (hmacSHA384_lt _ _)]
  refine ⟨h, ?_, ?_⟩
  · rw [h, lowerHex_length, hmacSHA384_length]
  · rw [h]
    exact lowerHex_chars _ (hmacSHA384_lt _ _)


/-- The fixture `Sign(["GET", "/api/v2/markets", "1620000000000000"], "s3cr3t")`. -/
theorem SignRequest_fixture :
    SignRequest ⟨"", "s3cr3t"⟩ ["GET", "/api/v2/markets", "1620000000000000"]
      = "87cf0cfa4c46be5591f96157fe925b2048c64b67f002fcf3639cbdbead144507e9733b6890968b2d1467caf24a441408" := by
  decide!

/-- Test vectors of RFC 4648 for the base64 encoder. -/
theorem base64_vectors :
    base64EncodeToString (toBytes "") = ""
      ∧ base64EncodeToString (toBytes "f") = "Zg=="
      ∧ base64EncodeToString (toBytes "fo") = "Zm8="
      ∧ base64EncodeToString (toBytes "foo") = "Zm9v"
      ∧ base64EncodeToString (toBytes "foobar") = "Zm9vYmFy"
      ∧ base64EncodeToString [251, 255, 190] = "+/++" := by
  decide

/-! ## Request signing: lemmas -/

theorem canonical_apikey : CanonicalMIMEHeaderKey "X-SBTC-APIKEY" = "X-Sbtc-Apikey" := by
  decide

theorem canonical_nonce : CanonicalMIMEHeaderKey "X-SBTC-NONCE" = "X-Sbtc-Nonce" := by
  decide

theorem canonical_signature :
    CanonicalMIMEHeaderKey "X-SBTC-SIGNATURE" = "X-Sbtc-Signature" := by
  decide

theorem setAuthHeaders_get (client : APIClient) (request : Request)
    (timestamp signature : String) :
    (setAuthHeaders client request timestamp signature).Header.Get "X-SBTC-APIKEY"
        = client.Key
      ∧ (setAuthHeaders client request timestamp signature).Header.Get "X-SBTC-NONCE"
        = timestamp
      ∧ (setAuthHeaders client request timestamp signature).Header.Get "X-SBTC-SIGNATURE"
        = signature := by
  simp [setAuthHeaders, Header.Get, Header.Set, canonical_apikey, canonical_nonce,
    canonical_signature, List.lookup, List.filter]

theorem setAuthHeaders_frame (client : APIClient) (request : Request)
    (timestamp signature : String) :
    (setAuthHeaders client request timestamp signature).Body = request.Body
      ∧ (setAuthHeaders client request timestamp signature).Method = request.Method
      ∧ (setAuthHeaders client request timestamp signature).RequestURI
        = request.RequestURI := by
  simp [setAuthHeaders]

theorem wrapInt64_id (x : Int) (h1 : -2 ^ 63 ≤ x) (h2 : x < 2 ^ 63) : wrapInt64 x = x := by
  unfold wrapInt64
  omega

theorem digit_value : ∀ d, d < 10 → (Char.ofNat (48 + d)).toNat - 48 = d := by
  decide

theorem formatBits_value (fuel u : Nat) (acc : List Char) (h : u ≤ fuel) :
    (formatBits fuel u acc).foldl (fun v c => v * 10 + (c.toNat - 48)) 0
      = acc.foldl (fun v c => v * 10 + (c.toNat - 48)) u := by
  induction fuel generalizing u acc with
  | zero =>
    have hu : u = 0 := Nat.le_zero.mp h
    subst hu
    simp [formatBits]
  | succ fuel ih =>
    unfold formatBits
    by_cases hu : u ≥ 10
    · rw [if_pos hu, ih (u / 10) _ (by omega), List.foldl_cons,
        digit_value _ (Nat.mod_lt _ (by decide))]
      congr 1
      omega
    · rw [if_neg hu, List.foldl_cons, digit_value _ (by omega)]
      congr 1
      omega

/-- The text `FormatInt i` is the decimal numeral of `i`: an optional minus sign followed
by digits whose decimal value is the magnitude of `i`. -/
theorem FormatInt_decimal (i : Int) :
    (0 ≤ i → decimalValue (FormatInt i).data = i.natAbs)
      ∧ (i < 0 → ∃ ds, (FormatInt i).data = '-' :: ds ∧ decimalValue ds = i.natAbs) := by
  constructor
  · intro hi
    unfold FormatInt decimalValue
    rw [if_neg (by omega)]
    exact formatBits_value _ _ [] (le_refl _)
  · intro hi
    unfold FormatInt decimalValue
    rw [if_pos hi]
    exact ⟨_, rfl, formatBits_value _ _ [] (le_refl _)⟩

/-- Without overflow of `UnixNano * 1000000` the nonce follows the clock. -/
theorem nonce_monotone_without_overflow (t1 t2 : Int) (h : t1 ≤ t2)
    (h1 : -2 ^ 63 ≤ t1 * 1000000) (h2 : t2 * 1000000 < 2 ^ 63) :
    nonce t1 ≤ nonce t2 := by
  unfold nonce
  rw [wrapInt64_id _ h1 (by omega), wrapInt64_id _ (by omega) h2]
  omega

theorem AuthenticatedRequest_returned (client : APIClient) (unixNano : Int)
    (request r : Request) (h : AuthenticatedRequest client unixNano request = .returned r) :
    ∃ signature, r = setAuthHeaders client
        { request with Body := if request.Method = "POST"
            then request.Body.map (fun s => (ReadAll s).2.2) else request.Body }
        (FormatInt (nonce unixNano)) signature
      ∧ (request.Method = "GET" → signature = SignRequest client
          [request.Method, request.RequestURI, FormatInt (nonce unixNano)])
      ∧ (request.Method = "POST" → ∃ stream, request.Body = some stream ∧
          signature = SignRequest client [request.Method, request.RequestURI,
            base64EncodeToString stream.pending, FormatInt (nonce unixNano)]) := by
  obtain ⟨m, u, b, hd⟩ := request
  unfold AuthenticatedRequest at h
  by_cases hp : m = "POST"
  · subst hp
    simp only [if_true] at h
    cases b with
    | none => simp at h
    | some stream =>
      obtain ⟨pending, fail⟩ := stream
      simp only [ReadAll] at h
      cases fail with
      | some e => simp at h
      | none =>
        simp only [AuthOutcome.returned.injEq] at h
        refine ⟨SignRequest client ["POST", u, base64EncodeToString pending,
          FormatInt (nonce unixNano)], ?_, ?_, ?_⟩
        · rw [← h]
          simp [ReadAll]
        · intro hg
          have hg1 : "POST" = "GET" := hg
          exact absurd hg1 (by decide)
        · intro _
          exact ⟨_, rfl, rfl⟩
  · simp only [hp, if_false] at h
    by_cases hg : m = "GET"
    · subst hg
      simp only [if_true, AuthOutcome.returned.injEq] at h
      refine ⟨SignRequest client ["GET", u, FormatInt (nonce unixNano)], ?_, ?_, ?_⟩
      · rw [← h]
        simp
      · intro _
        rfl
      · intro hp1
        exact absurd hp1 hp
    · simp only [hg, if_false, AuthOutcome.returned.injEq] at h
      refine ⟨"", ?_, ?_, ?_⟩
      · rw [← h]
        simp [hp]
      · intro hg1
        exact absurd hg1 hg
      · intro hp1
        exact absurd hp1 hp

/-! ## Request signing: the claims -/

/-- C2: when `AuthenticatedRequest` returns without error, the `X-SBTC-APIKEY` header is
the client's key, the `X-SBTC-NONCE` header is the decimal text of the nonce, and the
`X-SBTC-SIGNATURE` header is `SignRequest` over method, request URI and nonce for `GET`,
and over method, request URI, base64 of the body bytes and nonce for `POST`; the nonce
that is signed is the very text of the nonce header. -/
theorem AuthenticatedRequest_headers (client : APIClient) (unixNano : Int)
    (request r : Request) (h : AuthenticatedRequest client unixNano request = .returned r) :
    r.Header.Get "X-SBTC-APIKEY" = client.Key
      ∧ r.Header.Get "X-SBTC-NONCE" = FormatInt (nonce unixNano)
      ∧ (request.Method = "GET" → r.Header.Get "X-SBTC-SIGNATURE" = SignRequest client
          ["GET", request.RequestURI, r.Header.Get "X-SBTC-NONCE"])
      ∧ (request.Method = "POST" → ∃ stream, request.Body = some stream ∧
          r.Header.Get "X-SBTC-SIGNATURE" = SignRequest client
            ["POST", request.RequestURI, base64EncodeToString stream.pending,
              r.Header.Get "X-SBTC-NONCE"]) := by
  obtain ⟨signature, hr, hget, hpost⟩ := AuthenticatedRequest_returned client unixNano request r h
  obtain ⟨h1, h2, h3⟩ := setAuthHeaders_get client
    { request with Body := if request.Method = "POST"
        then request.Body.map (fun s => (ReadAll s).2.2) else request.Body }
    (FormatInt (nonce unixNano)) signature
  rw [← hr] at h1 h2 h3
  refine ⟨h1, h2, ?_, ?_⟩
  · intro hg
    rw [h3, h2, hget hg, hg]
  · intro hp
    obtain ⟨stream, hb, hs⟩ := hpost hp
    exact ⟨stream, hb, by rw [h3, h2, hs, hp]⟩

/-- Instance of `AuthenticatedRequest_headers`: a `GET` for `/api/v2/balances`. -/
theorem AuthenticatedRequest_headers_witness :
    AuthenticatedRequest ⟨"key", "secret"⟩ 1620000000000000000
        ⟨"GET", "/api/v2/balances", none, []⟩
      = .returned (setAuthHeaders ⟨"key", "secret"⟩ ⟨"GET", "/api/v2/balances", none, []⟩
          "6935446827177082880" (SignRequest ⟨"key", "secret"⟩
            ["GET", "/api/v2/balances", "6935446827177082880"]))
    ∧ (setAuthHeaders ⟨"key", "secret"⟩ ⟨"GET", "/api/v2/balances", none, []⟩
          "6935446827177082880" (SignRequest ⟨"key", "secret"⟩
            ["GET", "/api/v2/balances", "6935446827177082880"])).Header.Get "X-SBTC-NONCE"
        = FormatInt (nonce 1620000000000000000) :=
  ⟨by decide!, (AuthenticatedRequest_headers ⟨"key", "secret"⟩ 1620000000000000000
    ⟨"GET", "/api/v2/balances", none, []⟩ _ (by decide!)).2.1⟩

/-- C3 (evaluation): two successive clock readings of 5 November 2026, one nanosecond
apart, at which the nonce `UnixNano * 1000000` wraps in `int64` and decreases. -/
theorem nonce_decreases_at_wrap :
    (1793844404075848492 : Int) ≤ 1793844404075848493
      ∧ nonce 1793844404075848493 < nonce 1793844404075848492
      ∧ nonce 1793844404075848492 = 9223372036854653696
      ∧ nonce 1793844404075848493 = -9223372036853897920 := by
  decide

/-- C4 (evaluation): a `POST` whose body stream holds the bytes `hi` is signed without
error, and afterwards the request's body stream yields no bytes. -/
theorem POST_body_consumed_by_signing :
    ∃ r, AuthenticatedRequest ⟨"key", "secret"⟩ 1620000000000000000
        ⟨"POST", "/api/v2/orders", some ⟨[104, 105], none⟩, []⟩ = .returned r
      ∧ r.Body = some ⟨[], none⟩ :=
  ⟨setAuthHeaders ⟨"key", "secret"⟩ ⟨"POST", "/api/v2/orders", some ⟨[], none⟩, []⟩
      "6935446827177082880" (SignRequest ⟨"key", "secret"⟩
        ["POST", "/api/v2/orders", "aGk=", "6935446827177082880"]),
    by decide!, by decide⟩

/-- Every successful signing of a `POST` leaves the body stream empty. -/
theorem POST_body_always_consumed (client : APIClient) (unixNano : Int)
    (request r : Request) (h : AuthenticatedRequest client unixNano request = .returned r)
    (hp : request.Method = "POST") :
    ∃ stream, request.Body = some stream ∧ r.Body = some ⟨[], stream.fail⟩ := by
  obtain ⟨signature, hr, _, hpost⟩ := AuthenticatedRequest_returned client unixNano request r h
  obtain ⟨stream, hb, _⟩ := hpost hp
  refine ⟨stream, hb, ?_⟩
  rw [hr, (setAuthHeaders_frame _ _ _ _).1]
  simp [hp, hb, ReadAll]

/-! ## The paginated fetch: fail-fast collection -/

theorem FailFast_firstPage {α : Type} (first : Reply α) : FailFast (firstPage first) := by
  unfold FailFast firstPage
  rcases first with e | ⟨d, _ | e⟩
  · simp
  · simp only []
    split <;> simp
  · simp

theorem FailFast_stepMain {α : Type} (s : State α) (h : FailFast s) :
    FailFast (stepMain s) := by
  obtain ⟨h1, h2⟩ := h
  unfold FailFast stepMain
  cases hm : s.main with
  | spawn i =>
    have hno : ∀ e, Signal.err e ∉ s.consumed := fun e he => by
      have := h1 e he; rw [hm] at this; cases this
    by_cases hi : i ≤ s.orders.Meta.TotalPages <;> simp [hi, hno]
  | collectInit =>
    have hno : ∀ e, Signal.err e ∉ s.consumed := fun e he => by
      have := h1 e he; rw [hm] at this; cases this
    simp [hno]
  | collect i =>
    have hno : ∀ e, Signal.err e ∉ s.consumed := fun e he => by
      have := h1 e he; rw [hm] at this; cases this
    by_cases hi : i ≤ s.orders.Meta.TotalPages <;> simp [hi, hno]
  | select i => simpa [hm] using And.intro h1 h2
  | returned r e => simpa [hm] using And.intro h1 h2

theorem stepTask_main {α : Type} (serve : Int → Reply α) (s : State α) (k : Nat) :
    (stepTask serve s k).main = s.main ∧ (stepTask serve s k).consumed = s.consumed
      ∧ (stepTask serve s k).started = s.started ∧ (stepTask serve s k).ret = s.ret := by
  unfold stepTask
  cases s.tasks.get? k with
  | none => simp
  | some t =>
    cases t with
    | start i =>
      simp only []
      split <;> simp
    | decoded i => simp
    | sendRes v => simp
    | sendErr e => simp
    | done => simp

theorem FailFast_stepRecv {α : Type} (s : State α) (k : Nat) (h : FailFast s) :
    FailFast (stepRecv s k) := by
  obtain ⟨h1, h2⟩ := h
  unfold FailFast stepRecv
  cases hm : s.main with
  | select i =>
    have hno : ∀ e, Signal.err e ∉ s.consumed := fun e he => by
      have := h1 e he; rw [hm] at this; cases this
    cases s.tasks.get? k with
    | none => simp [hno, hm]
    | some t =>
      cases t with
      | sendRes v => simp [hno]
      | sendErr e0 =>
        simp only [List.mem_append, List.mem_singleton, Signal.err.injEq,
          Main.returned.injEq, Option.some.injEq]
        refine ⟨fun e he => ?_, fun items e he => he.1.symm⟩
        rcases he with he | he
        · exact absurd he (hno e)
        · exact ⟨trivial, he.symm⟩
      | start i => simp [hno, hm]
      | decoded i => simp [hno, hm]
      | done => simp [hno, hm]
  | spawn i => simpa [hm] using And.intro h1 h2
  | collectInit => simpa [hm] using And.intro h1 h2
  | collect i => simpa [hm] using And.intro h1 h2
  | returned r e => simpa [hm] using And.intro h1 h2

theorem FailFast_step {α : Type} (serve : Int → Reply α) (s : State α) (a : Act)
    (h : FailFast s) : FailFast (step serve s a) := by
  cases a with
  | main => exact FailFast_stepMain s h
  | task k =>
    obtain ⟨hm, hc, _, _⟩ := stepTask_main serve s k
    show FailFast (stepTask serve s k)
    unfold FailFast
    rw [hm, hc]
    exact h
  | recv k => exact FailFast_stepRecv s k h

theorem FailFast_run {α : Type} (serve : Int → Reply α) (sched : List Act) (s : State α)
    (h : FailFast s) : FailFast (sched.foldl (step serve) s) := by
  induction sched generalizing s with
  | nil => exact h
  | cons a rest ih => exact ih _ (FailFast_step serve s a h)

/-- C5: in the paginated fetch, for every first page (in particular one with
`total_pages > 1`, the only kind after which signals are consumed) and every schedule,
once the collector has consumed an error signal carrying `e` the call has returned the
nil sequence together with exactly `e`, whatever successes were consumed before; and no
run returns a non-nil sequence alongside an error. -/
theorem collector_fails_fast {α : Type} (first : Reply α) (serve : Int → Reply α)
    (sched : List Act) (e : GoError)
    (he : Signal.err e ∈ (GetOrdersByMarket first serve sched).consumed) :
    (GetOrdersByMarket first serve sched).main = .returned [] (some e)
      ∧ ∀ (sched1 : List Act) (items : List α) (e1 : GoError),
          (GetOrdersByMarket first serve sched1).main = .returned items (some e1)
            → items = [] :=
  ⟨(FailFast_run serve sched _ (FailFast_firstPage _)).1 e he,
    fun sched1 items e1 h => (FailFast_run serve sched1 _ (FailFast_firstPage _)).2 items e1 h⟩

/-- Instance of `collector_fails_fast`: three pages, page 3 fails after page 2 was
consumed. -/
theorem collector_fails_fast_witness :
    Signal.err ⟨"boom"⟩ ∈ (GetOrdersByMarket
        (.body ⟨some ["A", "B"], some 1, some 6, some 3⟩ none)
        (fun p => if p = 2 then .body ⟨some ["C", "D"], none, none, none⟩ none
          else .getError ⟨"boom"⟩)
        [.main, .main, .main, .main, .main, .task 0, .task 0, .task 1, .recv 0,
          .main, .main, .recv 1]).consumed
    ∧ (GetOrdersByMarket
        (.body ⟨some ["A", "B"], some 1, some 6, some 3⟩ none)
        (fun p => if p = 2 then .body ⟨some ["C", "D"], none, none, none⟩ none
          else .getError ⟨"boom"⟩)
        [.main, .main, .main, .main, .main, .task 0, .task 0, .task 1, .recv 0,
          .main, .main, .recv 1]).main = .returned [] (some ⟨"boom"⟩) :=
  ⟨by decide!, (collector_fails_fast _ _ _ _ (by decide!)).1⟩

/-! ## The paginated fetch: a single page -/

theorem step_idle {α : Type} (serve : Int → Reply α) (s : State α) (a : Act)
    (r : List α) (e : Option GoError) (hm : s.main = .returned r e) (ht : s.tasks = []) :
    step serve s a = s := by
  cases a with
  | main => simp [step, stepMain, hm]
  | task k => simp [step, stepTask, ht]
  | recv k => simp [step, stepRecv, hm]

theorem run_idle {α : Type} (serve : Int → Reply α) (sched : List Act) (s : State α)
    (r : List α) (e : Option GoError) (hm : s.main = .returned r e) (ht : s.tasks = []) :
    sched.foldl (step serve) s = s := by
  induction sched with
  | nil => rfl
  | cons a rest ih => rw [List.foldl_cons, step_idle serve s a r e hm ht, ih]

/-- C8: when the first page decodes with `total_pages <= 1` (an envelope without `meta`
decodes to `total_pages = 0`), then under every schedule the call has made exactly one
request, has started no goroutine, and returns exactly the first page's items, in
their order, with a nil error. -/
theorem single_page_fetch {α : Type} (d : Decoded α) (serve : Int → Reply α)
    (sched : List Act) (h : (Unmarshal d zeroOrders).Meta.TotalPages ≤ 1) :
    (GetOrdersByMarket (.body d none) serve sched).main = .returned (d.orders.getD []) none
      ∧ (GetOrdersByMarket (.body d none) serve sched).requests = [1]
      ∧ (GetOrdersByMarket (.body d none) serve sched).started = []
      ∧ (GetOrdersByMarket (.body d none) serve sched).tasks = []
      ∧ (d.total_pages = none → (Unmarshal d (zeroOrders : Orders α)).Meta.TotalPages = 0) := by
  have hinit : firstPage (.body d none)
      = ⟨Unmarshal d zeroOrders, d.orders.getD [], .returned (d.orders.getD []) none, [], [1],
          [], []⟩ := by
    have hn : ¬ (Unmarshal d (zeroOrders : Orders α)).Meta.TotalPages > 1 := by omega
    simp only [firstPage, if_neg hn]
    simp [Unmarshal, zeroOrders]
  unfold GetOrdersByMarket
  rw [run_idle serve sched _ (d.orders.getD []) none (by rw [hinit]) (by rw [hinit]), hinit]
  refine ⟨rfl, rfl, rfl, rfl, ?_⟩
  intro hd
  simp [Unmarshal, zeroOrders, hd]

/-- Instance of `single_page_fetch`: an envelope `[A, B]` without `meta`. -/
theorem single_page_fetch_witness :
    (Unmarshal (⟨some ["A", "B"], none, none, none⟩ : Decoded String) zeroOrders).Meta.TotalPages
        ≤ 1
    ∧ (GetOrdersByMarket (.body ⟨some ["A", "B"], none, none, none⟩ none)
        (fun _ => .getError ⟨"unused"⟩) [.main, .task 0, .recv 0]).main
        = .returned ["A", "B"] none :=
  ⟨by decide, (single_page_fetch _ _ _ (by decide)).1⟩

/-! ## The paginated fetch: which pages are started -/

theorem pagesFromTo_empty (a b : Int) (h : b < a) : pagesFromTo a b = [] := by
  unfold pagesFromTo
  have : (b + 1 - a).toNat = 0 := by omega
  rw [this]
  rfl

theorem pagesFromTo_snoc (a i : Int) (h : a ≤ i) :
    pagesFromTo a (i - 1) ++ [i] = pagesFromTo a i := by
  unfold pagesFromTo
  have h1 : (i + 1 - a).toNat = (i - 1 + 1 - a).toNat + 1 := by omega
  rw [h1, List.range_succ, List.map_append]
  congr 1
  simp only [List.map_cons, List.map_nil, List.cons.injEq, and_true]
  omega

theorem SpawnInv_firstPage {α : Type} (d : Decoded α) (c N : Int)
    (hc : (Unmarshal d zeroOrders).Meta.CurrentPage = c)
    (hN : (Unmarshal d zeroOrders).Meta.TotalPages = N) (h1 : 1 < N)
    (hlo : -2 ^ 63 ≤ c + 1) (hhi : c + 1 < 2 ^ 63) :
    SpawnInv c N (firstPage (.body d none) : State α) := by
  have hgt : (Unmarshal d (zeroOrders : Orders α)).Meta.TotalPages > 1 := by omega
  have hs : (firstPage (.body d none) : State α)
      = ⟨Unmarshal d zeroOrders, [] ++ (Unmarshal d zeroOrders).Orders, .spawn (c + 1), [], [1],
          [], []⟩ := by
    simp only [firstPage, if_pos hgt, hc, wrapInt64_id (c + 1) hlo hhi]
  rw [hs]
  refine ⟨hN, le_refl _, Or.inr rfl, ?_⟩
  show [] = _
  rw [pagesFromTo_empty]
  omega

theorem SpawnInv_stepMain {α : Type} (c N : Int) (s : State α)
    (hlo : -2 ^ 63 ≤ c + 1) (hhi : N + 1 < 2 ^ 63) (h : SpawnInv c N s) :
    SpawnInv c N (stepMain s) := by
  obtain ⟨hT, hm⟩ := h
  cases hmain : s.main with
  | spawn i =>
    rw [hmain] at hm
    obtain ⟨h1, h2, h3⟩ := hm
    by_cases hi : i ≤ s.orders.Meta.TotalPages
    · have hw : wrapInt64 (i + 1) = i + 1 := wrapInt64_id _ (by omega) (by omega)
      have hs : stepMain s =
          { s with tasks := s.tasks ++ [.start i], started := s.started ++ [i],
                   main := .spawn (i + 1) } := by
        simp only [stepMain, hmain, if_pos hi, hw]
      rw [hs]
      refine ⟨hT, ?_, Or.inl ?_, ?_⟩
      · show c + 1 ≤ i + 1
        omega
      · show i + 1 ≤ N + 1
        omega
      · show s.started ++ [i] = pagesFromTo (c + 1) (i + 1 - 1)
        rw [h3, show i + 1 - 1 = i by omega]
        exact pagesFromTo_snoc _ _ h1
    · have hs : stepMain s = { s with main := .collectInit } := by
        simp only [stepMain, hmain, if_neg hi]
      rw [hs]
      refine ⟨hT, ?_⟩
      show s.started = pagesFromTo (c + 1) N
      rw [h3]
      rcases h2 with h2 | h2
      · have : i = N + 1 := by omega
        rw [this, show N + 1 - 1 = N by omega]
      · rw [pagesFromTo_empty _ _ (by omega), pagesFromTo_empty _ _ (by omega)]
  | collectInit =>
    rw [hmain] at hm
    have hs : stepMain s
        = { s with main := .collect (wrapInt64 (s.orders.Meta.CurrentPage + 1)) } := by
      simp only [stepMain, hmain]
    rw [hs]
    exact ⟨hT, hm⟩
  | collect i =>
    rw [hmain] at hm
    by_cases hi : i ≤ s.orders.Meta.TotalPages
    · have hs : stepMain s = { s with main := .select i } := by
        simp only [stepMain, hmain, if_pos hi]
      rw [hs]
      exact ⟨hT, hm⟩
    · have hs : stepMain s = { s with main := .returned s.ret none } := by
        simp only [stepMain, hmain, if_neg hi]
      rw [hs]
      exact ⟨hT, hm⟩
  | select i =>
    have hs : stepMain s = s := by simp only [stepMain, hmain]
    rw [hs]
    exact ⟨hT, hm⟩
  | returned r e =>
    have hs : stepMain s = s := by simp only [stepMain, hmain]
    rw [hs]
    exact ⟨hT, hm⟩

theorem stepTask_TotalPages {α : Type} (serve : Int → Reply α) (s : State α) (k : Nat)
    (N : Int) (hT : s.orders.Meta.TotalPages = N)
    (hserve : ∀ p dd err, serve p = .body dd err →
      dd.total_pages = none ∨ dd.total_pages = some N) :
    (stepTask serve s k).orders.Meta.TotalPages = N := by
  unfold stepTask
  cases s.tasks.get? k with
  | none => simpa using hT
  | some t =>
    cases t with
    | start i =>
      simp only []
      cases hs : serve i with
      | getError e => simpa using hT
      | body dd err =>
        have hdd := hserve i dd err hs
        cases err with
        | none => rcases hdd with hdd | hdd <;> simp [Unmarshal, hdd, hT]
        | some e => rcases hdd with hdd | hdd <;> simp [Unmarshal, hdd, hT]
    | decoded i => simpa using hT
    | sendRes v => simpa using hT
    | sendErr e => simpa using hT
    | done => simpa using hT

theorem SpawnInv_stepTask {α : Type} (serve : Int → Reply α) (c N : Int) (s : State α)
    (k : Nat)
    (hserve : ∀ p dd err, serve p = .body dd err →
      dd.total_pages = none ∨ dd.total_pages = some N)
    (h : SpawnInv c N s) : SpawnInv c N (stepTask serve s k) := by
  obtain ⟨hT, hm⟩ := h
  obtain ⟨h1, _, h3, _⟩ := stepTask_main serve s k
  unfold SpawnInv
  rw [h1, h3]
  exact ⟨stepTask_TotalPages serve s k N hT hserve, hm⟩

theorem SpawnInv_stepRecv {α : Type} (c N : Int) (s : State α) (k : Nat)
    (h : SpawnInv c N s) : SpawnInv c N (stepRecv s k) := by
  obtain ⟨hT, hm⟩ := h
  cases hmain : s.main with
  | select i =>
    rw [hmain] at hm
    cases ht : s.tasks.get? k with
    | none =>
      have hs : stepRecv s k = s := by simp only [stepRecv, hmain, ht]
      rw [hs]; exact ⟨hT, by rw [hmain]; exact hm⟩
    | some t =>
      cases t with
      | sendRes v =>
        have hs : stepRecv s k =
            { s with ret := s.ret ++ v, consumed := s.consumed ++ [.res v],
                     tasks := s.tasks.set k .done, main := .collect (wrapInt64 (i + 1)) } := by
          simp only [stepRecv, hmain, ht]
        rw [hs]; exact ⟨hT, hm⟩
      | sendErr e =>
        have hs : stepRecv s k =
            { s with consumed := s.consumed ++ [.err e], tasks := s.tasks.set k .done,
                     main := .returned [] (some e) } := by
          simp only [stepRecv, hmain, ht]
        rw [hs]; exact ⟨hT, hm⟩
      | start j =>
        have hs : stepRecv s k = s := by simp only [stepRecv, hmain, ht]
        rw [hs]; exact ⟨hT, by rw [hmain]; exact hm⟩
      | decoded j =>
        have hs : stepRecv s k = s := by simp only [stepRecv, hmain, ht]
        rw [hs]; exact ⟨hT, by rw [hmain]; exact hm⟩
      | done =>
        have hs : stepRecv s k = s := by simp only [stepRecv, hmain, ht]
        rw [hs]; exact ⟨hT, by rw [hmain]; exact hm⟩
  | spawn i =>
    have hs : stepRecv s k = s := by simp only [stepRecv, hmain]
    rw [hs]; exact ⟨hT, hm⟩
  | collectInit =>
    have hs : stepRecv s k = s := by simp only [stepRecv, hmain]
    rw [hs]; exact ⟨hT, hm⟩
  | collect i =>
    have hs : stepRecv s k = s := by simp only [stepRecv, hmain]
    rw [hs]; exact ⟨hT, hm⟩
  | returned r e =>
    have hs : stepRecv s k = s := by simp only [stepRecv, hmain]
    rw [hs]; exact ⟨hT, hm⟩

theorem SpawnInv_step {α : Type} (serve : Int → Reply α) (c N : Int) (s : State α) (a : Act)
    (hlo : -2 ^ 63 ≤ c + 1) (hhi : N + 1 < 2 ^ 63)
    (hserve : ∀ p dd err, serve p = .body dd err →
      dd.total_pages = none ∨ dd.total_pages = some N)
    (h : SpawnInv c N s) : SpawnInv c N (step serve s a) := by
  cases a with
  | main => exact SpawnInv_stepMain c N s hlo hhi h
  | task k => exact SpawnInv_stepTask serve c N s k hserve h
  | recv k => exact SpawnInv_stepRecv c N s k h

theorem SpawnInv_run {α : Type} (serve : Int → Reply α) (c N : Int) (sched : List Act)
    (s : State α) (hlo : -2 ^ 63 ≤ c + 1) (hhi : N + 1 < 2 ^ 63)
    (hserve : ∀ p dd err, serve p = .body dd err →
      dd.total_pages = none ∨ dd.total_pages = some N)
    (h : SpawnInv c N s) : SpawnInv c N (sched.foldl (step serve) s) := by
  induction sched generalizing s with
  | nil => exact h
  | cons a rest ih => exact ih _ (SpawnInv_step serve c N s a hlo hhi hserve h)

theorem stepMain_spawn {α : Type} (s : State α) (j : Int)
    (h : (stepMain s).main = .spawn j) :
    ∃ i, s.main = .spawn i ∧ i ≤ s.orders.Meta.TotalPages ∧ j = wrapInt64 (i + 1) := by
  unfold stepMain at h
  cases hmain : s.main with
  | spawn i =>
    rw [hmain] at h
    by_cases hi : i ≤ s.orders.Meta.TotalPages
    · simp only [if_pos hi, Main.spawn.injEq] at h
      exact ⟨i, rfl, hi, h.symm⟩
    · simp [if_neg hi] at h
  | collectInit => rw [hmain] at h; simp at h
  | collect i =>
    rw [hmain] at h
    by_cases hi : i ≤ s.orders.Meta.TotalPages
    · simp [if_pos hi] at h
    · simp [if_neg hi] at h
  | select i => rw [hmain] at h; simp [hmain] at h
  | returned r e => rw [hmain] at h; simp [hmain] at h

theorem SpawnInv_leaves_loop {α : Type} (serve : Int → Reply α) (c N : Int)
    (hlo : -2 ^ 63 ≤ c + 1) (hhi : N + 1 < 2 ^ 63) (n : Nat) (s : State α)
    (h : SpawnInv c N s)
    (hn : ∀ i, s.main = .spawn i → (N + 1 - i).toNat < n) :
    pastSpawn ((List.replicate n Act.main).foldl (step serve) s).main = true := by
  induction n generalizing s with
  | zero =>
    cases hmain : s.main with
    | spawn i => exact absurd (hn i hmain) (Nat.not_lt_zero _)
    | collectInit => simp [hmain, pastSpawn]
    | collect i => simp [hmain, pastSpawn]
    | select i => simp [hmain, pastSpawn]
    | returned r e => simp [hmain, pastSpawn]
  | succ n ih =>
    rw [List.replicate_succ, List.foldl_cons]
    apply ih _ (SpawnInv_stepMain c N s hlo hhi h)
    intro j hj
    obtain ⟨i, hi1, hi2, hi3⟩ := stepMain_spawn s j hj
    have hb := hn i hi1
    obtain ⟨hT, hm⟩ := h
    rw [hi1] at hm
    obtain ⟨h1, _, _⟩ := hm
    rw [hT] at hi2
    rw [wrapInt64_id _ (by omega) (by omega)] at hi3
    omega

theorem pagesFromTo_mem (a b p : Int) : p ∈ pagesFromTo a b ↔ a ≤ p ∧ p ≤ b := by
  unfold pagesFromTo
  simp only [List.mem_map, List.mem_range]
  constructor
  · rintro ⟨k, hk, rfl⟩
    omega
  · rintro ⟨h1, h2⟩
    exact ⟨(p - a).toNat, by omega, by omega⟩

theorem pagesFromTo_nodup (a b : Int) : (pagesFromTo a b).Nodup := by
  unfold pagesFromTo
  refine List.Nodup.map ?_ (List.nodup_range _)
  intro x y hxy
  simp only at hxy
  omega

theorem pagesFromTo_split (a i b : Int) (h1 : a ≤ i) (h2 : i ≤ b + 1) :
    pagesFromTo a (i - 1) ++ pagesFromTo i b = pagesFromTo a b := by
  unfold pagesFromTo
  have h : (b + 1 - a).toNat = (i - 1 + 1 - a).toNat + (b + 1 - i).toNat := by omega
  rw [h, List.range_add, List.map_append, List.map_map]
  congr 1
  apply List.map_congr_left
  intro k _
  simp only [Function.comp_apply, Nat.cast_add]
  omega

/-! ## The paginated fetch: which pages are requested -/

theorem pendingPages_append {α : Type} (tasks : List (Task α)) (i : Int) :
    pendingPages (tasks ++ [.start i]) = pendingPages tasks ++ [i] := by
  simp [pendingPages, List.filterMap_append]

theorem pendingPages_set_start {α : Type} (tasks : List (Task α)) (k : Nat) (i : Int)
    (x : Task α) (hk : tasks.get? k = some (.start i)) (hx : x.fetched = true) :
    List.Perm (pendingPages tasks) (i :: pendingPages (tasks.set k x)) := by
  induction tasks generalizing k with
  | nil => simp at hk
  | cons t ts ih =>
    cases k with
    | zero =>
      simp only [List.get?_cons_zero, Option.some.injEq] at hk
      subst hk
      cases x <;> simp_all [pendingPages, Task.fetched]
    | succ k =>
      simp only [List.get?_cons_succ] at hk
      have h := ih k hk
      cases t with
      | start j =>
        simp only [pendingPages, List.set_cons_succ, List.filterMap_cons] at h ⊢
        exact (List.Perm.cons j h).trans (List.Perm.swap i j _)
      | decoded j => simpa [pendingPages] using h
      | sendRes v => simpa [pendingPages] using h
      | sendErr e => simpa [pendingPages] using h
      | done => simpa [pendingPages] using h

theorem pendingPages_set_fetched {α : Type} (tasks : List (Task α)) (k : Nat)
    (t x : Task α) (hk : tasks.get? k = some t) (ht : t.fetched = true)
    (hx : x.fetched = true) :
    pendingPages (tasks.set k x) = pendingPages tasks := by
  induction tasks generalizing k with
  | nil => simp at hk
  | cons u us ih =>
    cases k with
    | zero =>
      simp only [List.get?_cons_zero, Option.some.injEq] at hk
      subst hk
      cases u <;> cases x <;> simp_all [pendingPages, Task.fetched]
    | succ k =>
      simp only [List.get?_cons_succ] at hk
      have h := ih k hk
      simp only [pendingPages, List.set_cons_succ, List.filterMap_cons] at h ⊢
      rw [h]

theorem RequestInv_firstPage {α : Type} (d : Decoded α) :
    RequestInv (firstPage (.body d none) : State α) := by
  unfold RequestInv firstPage
  simp only []
  split <;> exact ⟨[], rfl, by simp [pendingPages]⟩

theorem RequestInv_stepMain {α : Type} (s : State α) (h : RequestInv s) :
    RequestInv (stepMain s) := by
  obtain ⟨fetched, h1, h2⟩ := h
  unfold stepMain
  cases hmain : s.main with
  | spawn i =>
    by_cases hi : i ≤ s.orders.Meta.TotalPages
    · simp only [if_pos hi]
      refine ⟨fetched, h1, ?_⟩
      show List.Perm (fetched ++ pendingPages (s.tasks ++ [.start i])) (s.started ++ [i])
      rw [pendingPages_append, ← List.append_assoc]
      exact List.Perm.append_right _ h2
    · simp only [if_neg hi]
      exact ⟨fetched, h1, h2⟩
  | collectInit => exact ⟨fetched, h1, h2⟩
  | collect i =>
    by_cases hi : i ≤ s.orders.Meta.TotalPages
    · simp only [if_pos hi]; exact ⟨fetched, h1, h2⟩
    · simp only [if_neg hi]; exact ⟨fetched, h1, h2⟩
  | select i => simp only [hmain]; exact ⟨fetched, h1, h2⟩
  | returned r e => simp only [hmain]; exact ⟨fetched, h1, h2⟩

theorem RequestInv_stepTask {α : Type} (serve : Int → Reply α) (s : State α) (k : Nat)
    (h : RequestInv s) : RequestInv (stepTask serve s k) := by
  obtain ⟨fetched, h1, h2⟩ := h
  have hfetch : ∀ (i : Int) (x : Task α), s.tasks.get? k = some (.start i) →
      x.fetched = true →
      List.Perm (fetched ++ [i] ++ pendingPages (s.tasks.set k x)) s.started := by
    intro i x hk hx
    have hp := pendingPages_set_start s.tasks k i x hk hx
    refine List.Perm.trans ?_ h2
    rw [List.append_assoc]
    exact List.Perm.append_left _ hp.symm
  unfold stepTask
  cases hk : s.tasks.get? k with
  | none => exact ⟨fetched, h1, h2⟩
  | some t =>
    cases t with
    | start i =>
      simp only []
      split
      · exact ⟨fetched ++ [i], by simp [h1], hfetch i _ hk rfl⟩
      · exact ⟨fetched ++ [i], by simp [h1], hfetch i _ hk rfl⟩
      · exact ⟨fetched ++ [i], by simp [h1], hfetch i _ hk rfl⟩
    | decoded i =>
      refine ⟨fetched, h1, ?_⟩
      show List.Perm (fetched ++ pendingPages (s.tasks.set k (.sendRes s.orders.Orders)))
        s.started
      rw [pendingPages_set_fetched s.tasks k _ (.sendRes s.orders.Orders) hk rfl rfl]
      exact h2
    | sendRes v => exact ⟨fetched, h1, h2⟩
    | sendErr e => exact ⟨fetched, h1, h2⟩
    | done => exact ⟨fetched, h1, h2⟩

theorem RequestInv_stepRecv {α : Type} (s : State α) (k : Nat) (h : RequestInv s) :
    RequestInv (stepRecv s k) := by
  obtain ⟨fetched, h1, h2⟩ := h
  unfold stepRecv
  cases hmain : s.main with
  | select i =>
    cases hk : s.tasks.get? k with
    | none => simp only [hmain]; exact ⟨fetched, h1, h2⟩
    | some t =>
      cases t with
      | sendRes v =>
        refine ⟨fetched, h1, ?_⟩
        show List.Perm (fetched ++ pendingPages (s.tasks.set k .done)) s.started
        rw [pendingPages_set_fetched s.tasks k _ .done hk rfl rfl]
        exact h2
      | sendErr e =>
        refine ⟨fetched, h1, ?_⟩
        show List.Perm (fetched ++ pendingPages (s.tasks.set k .done)) s.started
        rw [pendingPages_set_fetched s.tasks k _ .done hk rfl rfl]
        exact h2
      | start j => simp only [hmain]; exact ⟨fetched, h1, h2⟩
      | decoded j => simp only [hmain]; exact ⟨fetched, h1, h2⟩
      | done => simp only [hmain]; exact ⟨fetched, h1, h2⟩
  | spawn i => simp only [hmain]; exact ⟨fetched, h1, h2⟩
  | collectInit => simp only [hmain]; exact ⟨fetched, h1, h2⟩
  | collect i => simp only [hmain]; exact ⟨fetched, h1, h2⟩
  | returned r e => simp only [hmain]; exact ⟨fetched, h1, h2⟩

theorem RequestInv_run {α : Type} (serve : Int → Reply α) (sched : List Act) (s : State α)
    (h : RequestInv s) : RequestInv (sched.foldl (step serve) s) := by
  induction sched generalizing s with
  | nil => exact h
  | cons a rest ih =>
    apply ih
    cases a with
    | main => exact RequestInv_stepMain s h
    | task k => exact RequestInv_stepTask serve s k h
    | recv k => exact RequestInv_stepRecv s k h

/-- C6 (amended): when the first page carries `current_page = c` and `total_pages = N > 1`
(neither the largest `int64`) and no page response changes `total_pages`, then under every
schedule the pages for which a goroutine has been started form an initial part of the run
`c + 1, ..., N`; they are exactly that run, each page once, as soon as the calling thread
has left the starting loop, which it does after at most `N - c + 1` further steps of its
own; and for `c >= 1` no page number is requested twice.  For `c = 1` the run is
`2, ..., N`. -/
theorem started_pages {α : Type} (d : Decoded α) (serve : Int → Reply α)
    (sched : List Act) (c N : Int)
    (hc : (Unmarshal d zeroOrders).Meta.CurrentPage = c)
    (hN : (Unmarshal d zeroOrders).Meta.TotalPages = N) (h1 : 1 < N)
    (hlo : -2 ^ 63 ≤ c) (hcmax : c < 2 ^ 63 - 1) (hNmax : N < 2 ^ 63 - 1)
    (hserve : ∀ p dd err, serve p = .body dd err →
      dd.total_pages = none ∨ dd.total_pages = some N) :
    (∃ later, (GetOrdersByMarket (.body d none) serve sched).started ++ later
        = pagesFromTo (c + 1) N)
      ∧ (pastSpawn (GetOrdersByMarket (.body d none) serve sched).main = true →
          (GetOrdersByMarket (.body d none) serve sched).started = pagesFromTo (c + 1) N)
      ∧ pastSpawn (GetOrdersByMarket (.body d none) serve
          (sched ++ List.replicate ((N - c).toNat + 1) Act.main)).main = true
      ∧ (pagesFromTo (c + 1) N).Nodup
      ∧ (∀ p, p ∈ pagesFromTo (c + 1) N ↔ c + 1 ≤ p ∧ p ≤ N)
      ∧ (1 ≤ c → (GetOrdersByMarket (.body d none) serve sched).requests.Nodup) := by
  have hinv : SpawnInv c N (GetOrdersByMarket (.body d none) serve sched) :=
    SpawnInv_run serve c N sched _ (by omega) (by omega) hserve
      (SpawnInv_firstPage d c N hc hN h1 (by omega) (by omega))
  have hpre : ∃ later, (GetOrdersByMarket (.body d none) serve sched).started ++ later
      = pagesFromTo (c + 1) N := by
    obtain ⟨_, hm⟩ := hinv
    cases hmain : (GetOrdersByMarket (.body d none) serve sched).main with
    | spawn i =>
      rw [hmain] at hm
      obtain ⟨h2, h3, h4⟩ := hm
      rcases h3 with h3 | h3
      · exact ⟨pagesFromTo i N, by rw [h4]; exact pagesFromTo_split _ _ _ h2 h3⟩
      · refine ⟨pagesFromTo (c + 1) N, ?_⟩
        rw [h4, h3, pagesFromTo_empty _ _ (by omega)]
        rfl
    | collectInit => rw [hmain] at hm; exact ⟨[], by rw [List.append_nil]; exact hm⟩
    | collect i => rw [hmain] at hm; exact ⟨[], by rw [List.append_nil]; exact hm⟩
    | select i => rw [hmain] at hm; exact ⟨[], by rw [List.append_nil]; exact hm⟩
    | returned r e => rw [hmain] at hm; exact ⟨[], by rw [List.append_nil]; exact hm⟩
  refine ⟨hpre, ?_, ?_, pagesFromTo_nodup _ _, pagesFromTo_mem _ _, ?_⟩
  rotate_left 2
  · intro hc1
    obtain ⟨later, hlater⟩ := hpre
    obtain ⟨fetched, hreq, hperm⟩ : RequestInv (GetOrdersByMarket (.body d none) serve sched) :=
      RequestInv_run serve sched _ (RequestInv_firstPage d)
    have hnd : ((GetOrdersByMarket (.body d none) serve sched).started).Nodup :=
      List.Nodup.of_append_left (hlater ▸ pagesFromTo_nodup (c + 1) N)
    have hnd2 : (fetched ++ pendingPages
        (GetOrdersByMarket (.body d none) serve sched).tasks).Nodup := hperm.nodup_iff.mpr hnd
    rw [hreq, List.nodup_cons]
    refine ⟨fun h1mem => ?_, List.Nodup.of_append_left hnd2⟩
    have hs : (1 : Int) ∈ (GetOrdersByMarket (.body d none) serve sched).started :=
      hperm.subset (List.mem_append_left _ h1mem)
    have hp : (1 : Int) ∈ pagesFromTo (c + 1) N := by
      rw [← hlater]
      exact List.mem_append_left _ hs
    have := (pagesFromTo_mem _ _ _).mp hp
    omega
  · intro hp
    obtain ⟨_, hm⟩ := hinv
    cases hmain : (GetOrdersByMarket (.body d none) serve sched).main with
    | spawn i => rw [hmain] at hp; simp [pastSpawn] at hp
    | collectInit => rw [hmain] at hm; exact hm
    | collect i => rw [hmain] at hm; exact hm
    | select i => rw [hmain] at hm; exact hm
    | returned r e => rw [hmain] at hm; exact hm
  · have hrun : GetOrdersByMarket (.body d none) serve
          (sched ++ List.replicate ((N - c).toNat + 1) Act.main)
        = (List.replicate ((N - c).toNat + 1) Act.main).foldl (step serve)
            (GetOrdersByMarket (.body d none) serve sched) := by
      unfold GetOrdersByMarket
      rw [List.foldl_append]
    rw [hrun]
    apply SpawnInv_leaves_loop serve c N (by omega) (by omega) _ _ hinv
    intro i hi
    obtain ⟨_, hm⟩ := hinv
    rw [hi] at hm
    obtain ⟨h2, _, _⟩ := hm
    omega

/-- Instance of `started_pages`: the first page reports page 1 of 3 and every later
response carries its own page number with `total_pages = 3`. -/
theorem started_pages_witness :
    (GetOrdersByMarket (.body ⟨some ["A", "B"], some 1, some 6, some 3⟩ none)
      (fun p => .body ⟨some ["C"], some p, some 6, some 3⟩ none)
      [.main, .main, .main, .task 0]).started = [2, 3] :=
  ((started_pages ⟨some ["A", "B"], some 1, some 6, some 3⟩
      (fun p => .body ⟨some ["C"], some p, some 6, some 3⟩ none)
      [.main, .main, .main, .task 0] 1 3 rfl rfl (by decide) (by decide) (by decide)
      (by decide) (fun p dd err h => by cases h; exact Or.inr rfl)).2.1 (by decide!)).trans
    (by decide)

/-- C6 (counterexample): the first page reports `current_page = 0` and `total_pages = 2`;
once the starting loop is left, goroutines have been started for pages 1 and 2, not for
page 2 alone, and page 1 is requested a second time. -/
theorem started_pages_counterexample :
    (Unmarshal (⟨some ["A", "B"], some 0, some 4, some 2⟩ : Decoded String)
        zeroOrders).Meta.TotalPages = 2
      ∧ pastSpawn (GetOrdersByMarket (.body ⟨some ["A", "B"], some 0, some 4, some 2⟩ none)
          (fun _ => .body ⟨some ["C", "D"], none, none, none⟩ none)
          [.main, .main, .main, .task 0, .task 1]).main = true
      ∧ (GetOrdersByMarket (.body ⟨some ["A", "B"], some 0, some 4, some 2⟩ none)
          (fun _ => .body ⟨some ["C", "D"], none, none, none⟩ none)
          [.main, .main, .main, .task 0, .task 1]).started = [1, 2]
      ∧ (GetOrdersByMarket (.body ⟨some ["A", "B"], some 0, some 4, some 2⟩ none)
          (fun _ => .body ⟨some ["C", "D"], none, none, none⟩ none)
          [.main, .main, .main, .task 0, .task 1]).requests = [1, 1, 2]
      ∧ ([1, 2] : List Int) ≠ pagesFromTo 2 2 := by
  decide!

/-! ## The paginated fetch: the shared envelope -/

/-- C7 (evaluation): pages `[A, B]` (page 1 of 3), `[C, D]` and `[E, F]`, no error.  Both
goroutines decode into the shared envelope before either evaluates `orders.Orders` for
its send; the call returns `[A, B, E, F, E, F]`, which is no permutation of the six
items. -/
theorem shared_envelope_duplicates_page :
    (GetOrdersByMarket (.body ⟨some ["A", "B"], some 1, some 6, some 3⟩ none)
        (fun p => if p = 2 then .body ⟨some ["C", "D"], none, none, none⟩ none
          else .body ⟨some ["E", "F"], none, none, none⟩ none)
        [.main, .main, .main, .task 0, .task 1, .task 0, .task 1, .main, .main, .recv 0,
          .main, .recv 1, .main]).main
      = .returned ["A", "B", "E", "F", "E", "F"] none
    ∧ (GetOrdersByMarket (.body ⟨some ["A", "B"], some 1, some 6, some 3⟩ none)
        (fun p => if p = 2 then .body ⟨some ["C", "D"], none, none, none⟩ none
          else .body ⟨some ["E", "F"], none, none, none⟩ none)
        [.main, .main, .main, .task 0, .task 1, .task 0, .task 1, .main, .main, .recv 0,
          .main, .recv 1, .main]).requests = [1, 2, 3]
    ∧ ¬ List.Perm ["A", "B", "E", "F", "E", "F"] ["A", "B", "C", "D", "E", "F"] := by
  decide!

/-- The same three pages under a schedule in which each goroutine decodes and evaluates
`orders.Orders` before the other decodes: the call returns the six items, page 3 before
page 2, in the order the signals arrive. -/
theorem benign_schedule_collects_all_pages :
    (GetOrdersByMarket (.body ⟨some ["A", "B"], some 1, some 6, some 3⟩ none)
        (fun p => if p = 2 then .body ⟨some ["C", "D"], none, none, none⟩ none
          else .body ⟨some ["E", "F"], none, none, none⟩ none)
        [.main, .main, .main, .main, .main, .task 0, .task 0, .task 1, .task 1, .recv 1,
          .main, .main, .recv 0, .main]).main
      = .returned ["A", "B", "E", "F", "C", "D"] none
    ∧ List.Perm ["A", "B", "E", "F", "C", "D"] ["A", "B", "C", "D", "E", "F"] := by
  decide!

/-- C9 (evaluation): page 1 reports `current_page = 1`, `total_pages = 3`; pages 2 and 3
report their own `current_page`; no error.  The goroutine of page 2 decodes before the
collector loop evaluates `orders.Meta.CurrentPage + 1`; the collector consumes one signal,
not two, and the call returns `[A, B, C, D]` with a nil error while the goroutine of
page 3 has not been served. -/
theorem collector_count_follows_shared_meta :
    (GetOrdersByMarket (.body ⟨some ["A", "B"], some 1, some 6, some 3⟩ none)
        (fun p => if p = 2 then .body ⟨some ["C", "D"], some 2, some 6, some 3⟩ none
          else .body ⟨some ["E", "F"], some 3, some 6, some 3⟩ none)
        [.main, .main, .main, .task 0, .main, .main, .task 0, .recv 0, .main]).main
      = .returned ["A", "B", "C", "D"] none
    ∧ (GetOrdersByMarket (.body ⟨some ["A", "B"], some 1, some 6, some 3⟩ none)
        (fun p => if p = 2 then .body ⟨some ["C", "D"], some 2, some 6, some 3⟩ none
          else .body ⟨some ["E", "F"], some 3, some 6, some 3⟩ none)
        [.main, .main, .main, .task 0, .main, .main, .task 0, .recv 0, .main]).consumed
      = [.res ["C", "D"]]
    ∧ (GetOrdersByMarket (.body ⟨some ["A", "B"], some 1, some 6, some 3⟩ none)
        (fun p => if p = 2 then .body ⟨some ["C", "D"], some 2, some 6, some 3⟩ none
          else .body ⟨some ["E", "F"], some 3, some 6, some 3⟩ none)
        [.main, .main, .main, .task 0, .main, .main, .task 0, .recv 0, .main]).tasks
      = [.done, .start 3] := by
  decide!

/-! ## Resource strings: lemmas -/

theorem doPrintf_text_cons (c : Char) (cs : List Char) (a : List Arg) (buf : String)
    (h : c ≠ '%') : doPrintf (c :: cs) .text a buf = doPrintf cs .text a (buf.push c) := by
  rw [doPrintf]
  simp only [if_neg h]

theorem doPrintf_text_literal (cs rest : List Char) (a : List Arg) (buf : String)
    (h : ∀ c ∈ cs, c ≠ '%') :
    doPrintf (cs ++ rest) .text a buf = doPrintf rest .text a (buf ++ String.mk cs) := by
  induction cs generalizing buf with
  | nil =>
    have : buf ++ String.mk [] = buf := String.append_empty buf
    rw [this]
    rfl
  | cons c cs ih =>
    rw [List.cons_append, doPrintf_text_cons c _ a buf (h c (List.mem_cons_self _ _)),
      ih _ (fun x hx => h x (List.mem_cons_of_mem _ hx))]
    congr 1
    apply String.ext
    simp

theorem doPrintf_verb_s (x : String) (rest : List Char) (a : List Arg) (buf : String) :
    doPrintf ('%' :: 's' :: rest) .text (.str x :: a) buf
      = doPrintf rest .text a (buf ++ x) := by
  rw [doPrintf]
  simp only [if_true]
  rw [doPrintf]
  simp [printArg]

theorem doPrintf_verb_d (i : Int) (rest : List Char) (a : List Arg) (buf : String) :
    doPrintf ('%' :: 'd' :: rest) .text (.int i :: a) buf
      = doPrintf rest .text a (buf ++ FormatInt i) := by
  rw [doPrintf]
  simp only [if_true]
  rw [doPrintf]
  simp [printArg]


theorem digit_ne_percent : ∀ d, d < 10 → Char.ofNat (48 + d) ≠ '%' := by
  decide

theorem formatBits_no_percent (fuel u : Nat) (acc : List Char)
    (h : ∀ c ∈ acc, c ≠ '%') : ∀ c ∈ formatBits fuel u acc, c ≠ '%' := by
  induction fuel generalizing u acc with
  | zero =>
    intro c hc
    simp only [formatBits, List.mem_cons] at hc
    rcases hc with hc | hc
    · rw [hc]; exact digit_ne_percent _ (Nat.mod_lt _ (by decide))
    · exact h c hc
  | succ fuel ih =>
    intro c hc
    unfold formatBits at hc
    by_cases hu : u ≥ 10
    · rw [if_pos hu] at hc
      refine ih _ _ (fun x hx => ?_) c hc
      simp only [List.mem_cons] at hx
      rcases hx with hx | hx
      · rw [hx]; exact digit_ne_percent _ (Nat.mod_lt _ (by decide))
      · exact h x hx
    · rw [if_neg hu] at hc
      simp only [List.mem_cons] at hc
      rcases hc with hc | hc
      · rw [hc]; exact digit_ne_percent _ (by omega)
      · exact h c hc

theorem FormatInt_no_percent (i : Int) : ∀ c ∈ (FormatInt i).data, c ≠ '%' := by
  intro c hc
  unfold FormatInt at hc
  by_cases hi : i < 0
  · rw [if_pos hi] at hc
    simp only [List.mem_cons] at hc
    rcases hc with hc | hc
    · rw [hc]; decide
    · exact formatBits_no_percent _ _ [] (fun _ h => absurd h (List.not_mem_nil _)) c hc
  · rw [if_neg hi] at hc
    exact formatBits_no_percent _ _ [] (fun _ h => absurd h (List.not_mem_nil _)) c hc

theorem Sprintf_page (i : Int) : Sprintf "?page=%d" [.int i] = some ("?page=" ++ FormatInt i) := by
  unfold Sprintf
  have h : "?page=%d".data = "?page=".data ++ ('%' :: 'd' :: []) := rfl
  rw [h, doPrintf_text_literal _ _ _ _ (by decide), doPrintf_verb_d, doPrintf]
  simp [extraArgs]

/-- A template `pre%spost` whose literal parts hold no `%`, followed by a tail without
`%`, formats to the operand put between the literal parts, followed by the tail. -/
theorem Sprintf_template (pre post tail id : String)
    (hpre : ∀ c ∈ pre.data, c ≠ '%') (hpost : ∀ c ∈ post.data, c ≠ '%')
    (htail : ∀ c ∈ tail.data, c ≠ '%') :
    Sprintf (pre ++ "%s" ++ post ++ tail) [.str id] = some (pre ++ id ++ post ++ tail) := by
  unfold Sprintf
  have h : (pre ++ "%s" ++ post ++ tail).data
      = pre.data ++ ('%' :: 's' :: ((post.data ++ tail.data) ++ [])) := by
    simp [String.data_append]
  rw [h, doPrintf_text_literal _ _ _ _ hpre, doPrintf_verb_s,
    doPrintf_text_literal _ _ _ _ (by
      intro c hc
      rcases List.mem_append.mp hc with hc | hc
      · exact hpost c hc
      · exact htail c hc), doPrintf]
  simp only [extraArgs, Option.some.injEq]
  apply String.ext
  simp [String.data_append]

theorem pageResourceByState_plain (pre post id state : String) (i : Int)
    (hpre : ∀ c ∈ pre.data, c ≠ '%') (hpost : ∀ c ∈ post.data, c ≠ '%')
    (h : ∀ c ∈ state.data, c ≠ '%') :
    pageResourceByState (pre ++ "%s" ++ post) id state i
      = some (pre ++ id ++ post ++ ("?page=" ++ FormatInt i ++ "&per=300&state=" ++ state)) := by
  unfold pageResourceByState
  rw [Sprintf_page]
  simp only [ElementsPerPage]
  have hf : pre ++ "%s" ++ post ++ ("?page=" ++ FormatInt i) ++ "&per=" ++ "300" ++ "&state="
        ++ state
      = pre ++ "%s" ++ post ++ ("?page=" ++ FormatInt i ++ "&per=300&state=" ++ state) := by
    apply String.ext
    simp [String.data_append]
  rw [hf]
  apply Sprintf_template _ _ _ _ hpre hpost
  intro c hc
  simp only [String.data_append, List.mem_append] at hc
  rcases hc with ((hc | hc) | hc) | hc
  · revert c; decide
  · exact FormatInt_no_percent i c hc
  · revert c; decide
  · exact h c hc

theorem firstPageResourceByState_plain (pre post id state : String)
    (hpre : ∀ c ∈ pre.data, c ≠ '%') (hpost : ∀ c ∈ post.data, c ≠ '%')
    (h : ∀ c ∈ state.data, c ≠ '%') :
    firstPageResourceByState (pre ++ "%s" ++ post) id state
      = some (pre ++ id ++ post ++ ("?page=1&per=300&state=" ++ state)) := by
  unfold firstPageResourceByState
  simp only [ElementsPerPage]
  have hf : pre ++ "%s" ++ post ++ "?page=1&per=" ++ "300" ++ "&state=" ++ state
      = pre ++ "%s" ++ post ++ ("?page=1&per=300&state=" ++ state) := by
    apply String.ext
    simp [String.data_append]
  rw [hf]
  apply Sprintf_template _ _ _ _ hpre hpost
  intro c hc
  simp only [String.data_append, List.mem_append] at hc
  rcases hc with hc | hc
  · revert c; decide
  · exact h c hc

/-! ## Resource strings: the state filter -/

/-- A state without `%` reaches the resource verbatim: for every market id, every such
state and every page `i`, the orders fetcher requests
`/markets/<id>/orders?page=<i>&per=300&state=<state>`, page 1 included, and likewise the
deposits and withdrawals fetchers under `/currencies/<id>/`. -/
theorem state_filter_without_percent (id state : String) (i : Int)
    (h : ∀ c ∈ state.data, c ≠ '%') :
    firstPageResourceByState OrdersEndpoint id state
        = some ("/markets/" ++ id ++ "/orders" ++ ("?page=1&per=300&state=" ++ state))
      ∧ pageResourceByState OrdersEndpoint id state i
        = some ("/markets/" ++ id ++ "/orders"
            ++ ("?page=" ++ FormatInt i ++ "&per=300&state=" ++ state))
      ∧ pageResourceByState DepositsEndpoint id state i
        = some ("/currencies/" ++ id ++ "/deposits"
            ++ ("?page=" ++ FormatInt i ++ "&per=300&state=" ++ state))
      ∧ pageResourceByState WithdrawalsEndpoint id state i
        = some ("/currencies/" ++ id ++ "/withdrawals"
            ++ ("?page=" ++ FormatInt i ++ "&per=300&state=" ++ state)) := by
  have ho : OrdersEndpoint = "/markets/" ++ "%s" ++ "/orders" := by decide
  have hd : DepositsEndpoint = "/currencies/" ++ "%s" ++ "/deposits" := by decide
  have hw : WithdrawalsEndpoint = "/currencies/" ++ "%s" ++ "/withdrawals" := by decide
  rw [ho, hd, hw]
  exact ⟨firstPageResourceByState_plain _ _ id state (by decide) (by decide) h,
    pageResourceByState_plain _ _ id state i (by decide) (by decide) h,
    pageResourceByState_plain _ _ id state i (by decide) (by decide) h,
    pageResourceByState_plain _ _ id state i (by decide) (by decide) h⟩

/-- C10 (evaluation): with the state `pending%2Ctraded` the fetchers concatenate the state
into the format of `fmt.Sprintf`, which reads `%2C` as a verb without operand; the
resource requested holds `%!C(MISSING)` in place of `%2C`, for the first page and for a
goroutine's page, for orders, deposits and withdrawals.  `GetTradesByMarket` appends its
filter after formatting and keeps a `%` verbatim. -/
theorem state_filter_read_as_format :
    firstPageResourceByState OrdersEndpoint "btc-clp" "pending%2Ctraded"
        = some "/markets/btc-clp/orders?page=1&per=300&state=pending%!C(MISSING)traded"
      ∧ pageResourceByState OrdersEndpoint "btc-clp" "pending%2Ctraded" 2
        = some "/markets/btc-clp/orders?page=2&per=300&state=pending%!C(MISSING)traded"
      ∧ pageResourceByState DepositsEndpoint "btc" "pending%2Ctraded" 2
        = some "/currencies/btc/deposits?page=2&per=300&state=pending%!C(MISSING)traded"
      ∧ pageResourceByState WithdrawalsEndpoint "btc" "pending%2Ctraded" 2
        = some "/currencies/btc/withdrawals?page=2&per=300&state=pending%!C(MISSING)traded"
      ∧ pageResourceByState OrdersEndpoint "btc-clp" "100%" 2
        = some "/markets/btc-clp/orders?page=2&per=300&state=100%!(NOVERB)"
      ∧ tradesResource "btc-clp" "100%" = some "/markets/btc-clp/trades?timestamp=100%" := by
  decide!

/-! ## The transport: lemmas -/

theorem FormatResource_eq (resource : String) :
    FormatResource resource = "https://www.buda.com/api/v2" ++ resource := by
  unfold FormatResource Sprintf
  have h : "%s%s".data = '%' :: 's' :: '%' :: 's' :: [] := rfl
  rw [h, doPrintf_verb_s, doPrintf_verb_s, doPrintf]
  simp only [extraArgs, Option.getD_some, BaseURL]
  apply String.ext
  simp [String.data_append]

theorem AuthenticatedRequest_GET (client : APIClient) (unixNano : Int) (uri : String) :
    AuthenticatedRequest client unixNano ⟨"GET", uri, none, []⟩
      = .returned (setAuthHeaders client ⟨"GET", uri, none, []⟩ (FormatInt (nonce unixNano))
          (SignRequest client ["GET", uri, FormatInt (nonce unixNano)])) := by
  unfold AuthenticatedRequest
  have h1 : ¬ ("GET" = "POST") := by decide
  simp only [if_neg h1, if_true]

/-- The request `Get` builds before the round trip, when the URL parses to `uri`. -/
theorem Get_request (client : APIClient) (net : Network) (unixNano : Int)
    (resource uri : String) (priv : Bool)
    (hp : net.parse (BaseURL ++ resource) = .ok uri) :
    ∃ req : Request, req.Method = "GET" ∧ req.RequestURI = uri ∧ req.Body = none ∧
      req = (if priv then setAuthHeaders client ⟨"GET", uri, none, []⟩
          (FormatInt (nonce unixNano)) (SignRequest client ["GET", uri, FormatInt (nonce unixNano)])
        else ⟨"GET", uri, none, []⟩) ∧
      Get client net unixNano resource priv =
        match net.Do (BaseURL ++ resource) req with
        | .error err => ⟨some (BaseURL ++ resource, req), .returned [] (some err)⟩
        | .ok response =>
          match response.Body.fail with
          | some err => ⟨some (BaseURL ++ resource, req), .returned [] (some err)⟩
          | none => ⟨some (BaseURL ++ resource, req), .returned response.Body.pending none⟩ := by
  have hf : FormatResource resource = BaseURL ++ resource := FormatResource_eq resource
  cases priv with
  | false =>
    refine ⟨⟨"GET", uri, none, []⟩, rfl, rfl, rfl, by simp, ?_⟩
    simp only [Get, hf, NewRequest, hp, Bool.false_eq_true, if_false, ReadAll]
    cases net.Do (BaseURL ++ resource) ⟨"GET", uri, none, []⟩ with
    | error err => rfl
    | ok response => cases hb : response.Body.fail <;> simp [hb]
  | true =>
    refine ⟨setAuthHeaders client ⟨"GET", uri, none, []⟩ (FormatInt (nonce unixNano))
      (SignRequest client ["GET", uri, FormatInt (nonce unixNano)]), ?_, ?_, ?_, by simp, ?_⟩
    · exact (setAuthHeaders_frame _ _ _ _).2.1
    · exact (setAuthHeaders_frame _ _ _ _).2.2
    · exact (setAuthHeaders_frame _ _ _ _).1
    · simp only [Get, hf, NewRequest, hp, if_true, AuthenticatedRequest_GET, ReadAll]
      cases net.Do (BaseURL ++ resource) (setAuthHeaders client ⟨"GET", uri, none, []⟩
          (FormatInt (nonce unixNano))
          (SignRequest client ["GET", uri, FormatInt (nonce unixNano)])) with
      | error err => rfl
      | ok response => cases hb : response.Body.fail <;> simp [hb]

/-- When `url.Parse` rejects the URL, `Get` returns that error with nil bytes and makes
no round trip. -/
theorem Get_rejected_url (client : APIClient) (net : Network) (unixNano : Int)
    (resource : String) (priv : Bool) (err : GoError)
    (hp : net.parse (BaseURL ++ resource) = .error err) :
    Get client net unixNano resource priv = ⟨none, .returned [] (some err)⟩ := by
  have hf : FormatResource resource = BaseURL ++ resource := FormatResource_eq resource
  simp only [Get, hf, NewRequest, hp]

/-- `Get` does not panic. -/
theorem Get_never_panics (client : APIClient) (net : Network) (unixNano : Int)
    (resource : String) (priv : Bool) :
    (Get client net unixNano resource priv).result ≠ .panicked := by
  cases hp : net.parse (BaseURL ++ resource) with
  | error err => rw [Get_rejected_url client net unixNano resource priv err hp]; simp
  | ok uri =>
    obtain ⟨req, _, _, _, _, h⟩ := Get_request client net unixNano resource uri priv hp
    rw [h]
    cases net.Do (BaseURL ++ resource) req with
    | error err => simp
    | ok response => cases hb : response.Body.fail <;> simp [hb]

theorem Get_withStatus (client : APIClient) (net : Network) (unixNano : Int)
    (resource : String) (priv : Bool) (f : Int → Int) :
    Get client (net.withStatus f) unixNano resource priv
      = Get client net unixNano resource priv := by
  cases hp : net.parse (BaseURL ++ resource) with
  | error err =>
    rw [Get_rejected_url client net unixNano resource priv err hp,
      Get_rejected_url client (net.withStatus f) unixNano resource priv err hp]
  | ok uri =>
    obtain ⟨req, _, _, _, hreq, h⟩ := Get_request client net unixNano resource uri priv hp
    obtain ⟨req1, _, _, _, hreq1, h1⟩ :=
      Get_request client (net.withStatus f) unixNano resource uri priv hp
    have he : req1 = req := by rw [hreq1, hreq]
    subst he
    rw [h, h1]
    simp only [Network.withStatus]
    cases net.Do (BaseURL ++ resource) req1 with
    | error err => rfl
    | ok response => rfl

/-! ## The transport: the claim -/

/-- C11: for every resource, whenever `Get(resource, private)` makes its round trip, the
request is a `GET` for exactly `https://www.buda.com/api/v2` followed by the resource; if
the round trip and the body read succeed, the call returns exactly the response body
bytes with a nil error, whatever the status code; an error of the round trip or of the
body read is returned unchanged with nil bytes; and replacing the status codes of the
responses changes nothing of the call. -/
theorem Get_returns_response_body (client : APIClient) (net : Network) (unixNano : Int)
    (resource : String) (priv : Bool) (url : String) (req : Request)
    (h : (Get client net unixNano resource priv).sent = some (url, req)) :
    url = "https://www.buda.com/api/v2" ++ resource ∧ req.Method = "GET"
      ∧ (∀ response, net.Do url req = .ok response → response.Body.fail = none →
          (Get client net unixNano resource priv).result
            = .returned response.Body.pending none)
      ∧ (∀ err, net.Do url req = .error err →
          (Get client net unixNano resource priv).result = .returned [] (some err))
      ∧ (∀ response err, net.Do url req = .ok response → response.Body.fail = some err →
          (Get client net unixNano resource priv).result = .returned [] (some err))
      ∧ ∀ f : Int → Int, Get client (net.withStatus f) unixNano resource priv
          = Get client net unixNano resource priv := by
  cases hp : net.parse (BaseURL ++ resource) with
  | error err =>
    rw [Get_rejected_url client net unixNano resource priv err hp] at h
    simp at h
  | ok uri =>
    obtain ⟨r, hm, _, _, _, hget⟩ := Get_request client net unixNano resource uri priv hp
    have hsent : (Get client net unixNano resource priv).sent
        = some (BaseURL ++ resource, r) := by
      rw [hget]
      cases net.Do (BaseURL ++ resource) r with
      | error err => rfl
      | ok response => cases hb : response.Body.fail <;> simp [hb]
    rw [hsent] at h
    simp only [Option.some.injEq, Prod.mk.injEq] at h
    obtain ⟨hu, hr⟩ := h
    subst hu hr
    refine ⟨rfl, hm, ?_, ?_, ?_, Get_withStatus client net unixNano resource priv⟩
    · intro response hd hb
      rw [hget, hd]
      simp [hb]
    · intro err hd
      rw [hget, hd]
    · intro response err hd hb
      rw [hget, hd]
      simp [hb]

/-- Instance of `Get_returns_response_body`: a response with status 404 and body `no`. -/
theorem Get_returns_response_body_witness :
    (Get ⟨"key", "secret"⟩
        ⟨fun _ => .ok "/api/v2/markets", fun _ _ => .ok ⟨404, ⟨[110, 111], none⟩⟩⟩
        1620000000000000000 "/markets" false).sent
      = some ("https://www.buda.com/api/v2/markets", ⟨"GET", "/api/v2/markets", none, []⟩)
    ∧ (Get ⟨"key", "secret"⟩
        ⟨fun _ => .ok "/api/v2/markets", fun _ _ => .ok ⟨404, ⟨[110, 111], none⟩⟩⟩
        1620000000000000000 "/markets" false).result = .returned [110, 111] none :=
  ⟨by decide!, (Get_returns_response_body ⟨"key", "secret"⟩
      ⟨fun _ => .ok "/api/v2/markets", fun _ _ => .ok ⟨404, ⟨[110, 111], none⟩⟩⟩
      1620000000000000000 "/markets" false "https://www.buda.com/api/v2/markets"
      ⟨"GET", "/api/v2/markets", none, []⟩ (by decide!)).2.2.1 ⟨404, ⟨[110, 111], none⟩⟩
        rfl rfl⟩

/-! ## Receive addresses: lemmas -/

theorem or_C0 : ∀ x, x < 32 → 0xC0 ||| x = 0xC0 + x := by decide

theorem or_80 : ∀ x, x < 64 → 0x80 ||| x = 0x80 + x := by decide

theorem or_E0 : ∀ x, x < 16 → 0xE0 ||| x = 0xE0 + x := by decide

theorem or_F0 : ∀ x, x < 8 → 0xF0 ||| x = 0xF0 + x := by decide

theorem and_3F (y : Nat) : y &&& 0x3F = y % 64 := Nat.and_pow_two_sub_one_eq_mod y 6

theorem toNat_ofNat_valid (n : Nat) (h : n.isValidChar) : (Char.ofNat n).toNat = n := by
  simp only [Char.ofNat, h, dite_true, Char.ofNatAux, Char.toNat]
  rfl

theorem toBytes_singleton (c : Char) : toBytes (String.singleton c) = utf8EncodeChar c := by
  simp [toBytes, String.singleton]

/-- The bytes `encoderune` writes for a valid code point are its UTF-8 encoding. -/
theorem encoderune_valid (n : Nat) (h : n.isValidChar) :
    encoderune (n : Int) = utf8EncodeChar (Char.ofNat n) := by
  have hlt : n < 0x110000 := by
    rcases h with h | ⟨_, h⟩
    · exact Nat.lt_trans h (by decide)
    · exact h
  have hi : ((n : Int) % 2 ^ 32).toNat = n := by omega
  unfold encoderune utf8EncodeChar
  simp only [hi, toNat_ofNat_valid n h, Nat.shiftRight_eq_div_pow, and_3F]
  by_cases h1 : n < 0x80
  · have h1' : n ≤ 0x7F := by omega
    rw [if_pos h1', if_pos h1]
    congr 1
    omega
  · have h1' : ¬ n ≤ 0x7F := by omega
    rw [if_neg h1', if_neg h1]
    by_cases h2 : n < 0x800
    · have h2' : n ≤ 0x7FF := by omega
      rw [if_pos h2', if_pos h2]
      have e1 : n / 2 ^ 6 % 256 = n / 64 := by omega
      have e2 : n % 256 % 64 = n % 64 := by omega
      rw [e1, e2, or_C0 _ (by omega), or_80 _ (by omega)]
    · have h2' : ¬ n ≤ 0x7FF := by omega
      rw [if_neg h2', if_neg h2]
      have hs : ¬ (n > 0x10FFFF ∨ (0xD800 ≤ n ∧ n ≤ 0xDFFF)) := by
        rcases h with h | ⟨h, _⟩ <;> omega
      rw [if_neg hs]
      by_cases h3 : n < 0x10000
      · have h3' : n ≤ 0xFFFF := by omega
        rw [if_pos h3', if_pos h3]
        have e1 : n / 2 ^ 12 % 256 = n / 4096 := by omega
        have e2 : n / 2 ^ 6 % 256 % 64 = n / 64 % 64 := by omega
        have e3 : n % 256 % 64 = n % 64 := by omega
        rw [e1, e2, e3, or_E0 _ (by omega), or_80 _ (by omega), or_80 _ (by omega)]
      · have h3' : ¬ n ≤ 0xFFFF := by omega
        rw [if_neg h3', if_neg h3]
        have e0 : n / 2 ^ 18 % 256 = n / 262144 := by omega
        have e1 : n / 2 ^ 12 % 256 % 64 = n / 4096 % 64 := by omega
        have e2 : n / 2 ^ 6 % 256 % 64 = n / 64 % 64 := by omega
        have e3 : n % 256 % 64 = n % 64 := by omega
        rw [e0, e1, e2, e3, or_F0 _ (by omega), or_80 _ (by omega), or_80 _ (by omega),
          or_80 _ (by omega)]

theorem encoderune_FFFD : encoderune 0xFFFD = [0xEF, 0xBF, 0xBD] := by decide

theorem utf8_FFFD : utf8EncodeChar (Char.ofNat 0xFFFD) = [0xEF, 0xBF, 0xBD] := by decide

/-- The bytes `encoderune` writes for a rune that is no valid code point are those of
U+FFFD. -/
theorem encoderune_invalid (v : Int) (hr : wrapInt32 v = v)
    (h : ¬ (0 ≤ v ∧ v.toNat.isValidChar)) : encoderune v = [0xEF, 0xBF, 0xBD] := by
  have hb : -2 ^ 31 ≤ v ∧ v < 2 ^ 31 := by
    unfold wrapInt32 at hr
    omega
  have hbig : (v % 2 ^ 32).toNat > 0x10FFFF ∨
      (0xD800 ≤ (v % 2 ^ 32).toNat ∧ (v % 2 ^ 32).toNat ≤ 0xDFFF) := by
    by_cases hv : 0 ≤ v
    · have hnv : ¬ v.toNat.isValidChar := fun hh => h ⟨hv, hh⟩
      have hi : (v % 2 ^ 32).toNat = v.toNat := by omega
      rw [hi]
      unfold Nat.isValidChar at hnv
      omega
    · left
      omega
  unfold encoderune
  simp only []
  rw [if_neg (by omega), if_neg (by omega), if_pos hbig]
  rfl

/-- The text `runeString v` has exactly the bytes Go's `string(v)` has. -/
theorem runeString_bytes (v : Int) : toBytes (runeString v) = intstring v := by
  unfold runeString intstring
  rw [toBytes_singleton]
  by_cases hv : 0 ≤ v ∧ v.toNat.isValidChar
  · obtain ⟨h0, hval⟩ := hv
    have hlt : v.toNat < 0x110000 := by
      rcases hval with h | ⟨_, h⟩
      · exact Nat.lt_trans h (by decide)
      · exact h
    have hw : wrapInt32 v = v := by
      unfold wrapInt32
      omega
    have hcast : ((v.toNat : Nat) : Int) = v := by omega
    rw [if_pos ⟨h0, hval⟩, if_neg (by simp [hw])]
    rw [← encoderune_valid v.toNat hval, hcast]
  · rw [if_neg hv, utf8_FFFD]
    by_cases hw : wrapInt32 v = v
    · rw [if_neg (by simp [hw])]
      exact (encoderune_invalid v hw hv).symm
    · rw [if_pos hw]
      exact encoderune_FFFD.symm

theorem Sprintf_two_operands (pre mid x y : String)
    (hpre : ∀ c ∈ pre.data, c ≠ '%') (hmid : ∀ c ∈ mid.data, c ≠ '%') :
    Sprintf (pre ++ "%s" ++ mid ++ "%s") [.str x, .str y] = some (pre ++ x ++ mid ++ y) := by
  unfold Sprintf
  have h : (pre ++ "%s" ++ mid ++ "%s").data
      = pre.data ++ ('%' :: 's' :: (mid.data ++ ('%' :: 's' :: []))) := by
    simp [String.data_append]
  rw [h, doPrintf_text_literal _ _ _ _ hpre, doPrintf_verb_s,
    doPrintf_text_literal _ _ _ _ hmid, doPrintf_verb_s, doPrintf]
  simp only [extraArgs, Option.some.injEq]
  apply String.ext
  simp [String.data_append]

theorem runeString_ne_FormatInt (v : Int) : runeString v ≠ FormatInt v := by
  intro heq
  have hd : (FormatInt v).data
      = [if 0 ≤ v ∧ v.toNat.isValidChar then Char.ofNat v.toNat else Char.ofNat 0xFFFD] := by
    rw [← heq]
    rfl
  obtain ⟨hpos, hneg⟩ := FormatInt_decimal v
  by_cases h0 : 0 ≤ v
  · have hval := hpos h0
    rw [hd] at hval
    by_cases hv : v.toNat.isValidChar
    · rw [if_pos ⟨h0, hv⟩] at hval
      simp only [decimalValue, List.foldl_cons, List.foldl_nil, toNat_ofNat_valid _ hv] at hval
      have hz : v = 0 := by omega
      subst hz
      revert heq
      decide
    · rw [if_neg (fun h => hv h.2)] at hval
      have h1 : decimalValue [Char.ofNat 0xFFFD] = 65485 := by decide
      rw [h1] at hval
      apply hv
      have : v.toNat = 65485 := by omega
      rw [this]
      decide
  · obtain ⟨ds, h1, h2⟩ := hneg (by omega)
    rw [hd] at h1
    simp only [List.cons.injEq] at h1
    obtain ⟨_, h3⟩ := h1
    rw [← h3] at h2
    simp only [decimalValue, List.foldl_nil] at h2
    omega

/-! ## Receive addresses: the claim -/

/-- C13: for every integer `id` and every currency, the resource `GetReceiveAddresses`
requests is `/currencies/<currency>/receive_addresses/<s>` where `s` is the single code
point `id` (U+FFFD when `id` is no valid code point), with the bytes Go's `string(id)`
yields, and never the decimal text of `id`; for `id = 65` the path ends in
`/receive_addresses/A`. -/
theorem receive_address_resource (id : Int) (currency : String) :
    receiveAddressResource id currency
        = some ("/currencies/" ++ currency ++ "/receive_addresses/" ++ runeString id)
      ∧ (runeString id).data
        = [if 0 ≤ id ∧ id.toNat.isValidChar then Char.ofNat id.toNat else Char.ofNat 0xFFFD]
      ∧ toBytes (runeString id) = intstring id
      ∧ runeString id ≠ FormatInt id
      ∧ receiveAddressResource 65 currency
        = some ("/currencies/" ++ currency ++ "/receive_addresses/" ++ "A") := by
  have he : ReceiveAddressEndpoint = "/currencies/" ++ "%s" ++ "/receive_addresses/" ++ "%s" := by
    decide
  have hr : ∀ v : Int, receiveAddressResource v currency
      = some ("/currencies/" ++ currency ++ "/receive_addresses/" ++ runeString v) := by
    intro v
    unfold receiveAddressResource
    rw [he]
    exact Sprintf_two_operands _ _ _ _ (by decide) (by decide)
  refine ⟨hr id, rfl, runeString_bytes id, runeString_ne_FormatInt id, ?_⟩
  rw [hr 65]
  rfl

/-! ## The paginated fetch: the decode target -/

/-- A goroutine's `json.Unmarshal(data, &orders)` writes the envelope of the calling
thread. -/
theorem stepTask_writes_shared_envelope {α : Type} (serve : Int → Reply α) (s : State α)
    (k : Nat) (i : Int) (d : Decoded α) (err : Option GoError)
    (hk : s.tasks.get? k = some (.start i)) (hs : serve i = .body d err) :
    (stepTask serve s k).orders = Unmarshal d s.orders := by
  unfold stepTask
  rw [hk]
  simp only [hs]
  cases err <;> rfl

/-- A goroutine's `resc <- orders.Orders` reads the envelope of the calling thread as it
is at that moment. -/
theorem stepTask_sends_shared_envelope {α : Type} (serve : Int → Reply α) (s : State α)
    (k : Nat) (i : Int) (hk : s.tasks.get? k = some (.decoded i)) :
    (stepTask serve s k).tasks = s.tasks.set k (.sendRes s.orders.Orders) := by
  unfold stepTask
  rw [hk]

theorem stepLocalEnvelope_orders {α : Type} (serve : Int → Reply α) (s : State α) (a : Act) :
    (stepLocalEnvelope serve s a).orders = s.orders := by
  cases a with
  | main =>
    show (stepMain s).orders = s.orders
    unfold stepMain
    cases s.main with
    | spawn i => simp only []; split <;> rfl
    | collectInit => rfl
    | collect i => simp only []; split <;> rfl
    | select i => rfl
    | returned r e => rfl
  | task k =>
    show (stepTaskLocalEnvelope serve s k).orders = s.orders
    unfold stepTaskLocalEnvelope
    cases s.tasks.get? k with
    | none => rfl
    | some t =>
      cases t with
      | start i => simp only []; split <;> rfl
      | decoded i => rfl
      | sendRes v => rfl
      | sendErr e => rfl
      | done => rfl
  | recv k =>
    show (stepRecv s k).orders = s.orders
    unfold stepRecv
    cases s.main with
    | select i =>
      cases s.tasks.get? k with
      | none => rfl
      | some t => cases t <;> rfl
    | spawn i => rfl
    | collectInit => rfl
    | collect i => rfl
    | returned r e => rfl

/-- With goroutines that have an envelope of their own, the envelope of the calling
thread stays what the first page made it, under every schedule. -/
theorem local_envelope_leaves_orders {α : Type} (first : Reply α) (serve : Int → Reply α)
    (sched : List Act) :
    (GetOrdersByMarketLocalEnvelope first serve sched).orders = (firstPage first).orders := by
  unfold GetOrdersByMarketLocalEnvelope
  generalize firstPage first = s
  induction sched generalizing s with
  | nil => rfl
  | cons a rest ih => rw [List.foldl_cons, ih, stepLocalEnvelope_orders]

/-- C12 (evaluation): pages `[A, B]` (page 1 of 3), `[C, D]` and `[E, F]`.  Once both
goroutines are started the envelope `orders` of the calling thread holds `[A, B]`; the
goroutine of page 2 decodes and the same envelope holds `[C, D]`; the goroutine of page 3
decodes and it holds `[E, F]`; the goroutine of page 2 then sends `[E, F]`, the items
the other goroutine decoded.  When page 2 carries `current_page = 2`, the collector loop
starts at 3, the value that goroutine wrote.  With envelopes local to the goroutines the
same schedule returns the six items; the program returns `[A, B, E, F, E, F]`. -/
theorem decode_target_shared_by_goroutines :
    (GetOrdersByMarket (.body ⟨some ["A", "B"], some 1, some 6, some 3⟩ none)
        (fun p => if p = 2 then .body ⟨some ["C", "D"], none, none, none⟩ none
          else .body ⟨some ["E", "F"], none, none, none⟩ none)
        [.main, .main, .main]).orders.Orders = ["A", "B"]
    ∧ (GetOrdersByMarket (.body ⟨some ["A", "B"], some 1, some 6, some 3⟩ none)
        (fun p => if p = 2 then .body ⟨some ["C", "D"], none, none, none⟩ none
          else .body ⟨some ["E", "F"], none, none, none⟩ none)
        [.main, .main, .main, .task 0]).orders.Orders = ["C", "D"]
    ∧ (GetOrdersByMarket (.body ⟨some ["A", "B"], some 1, some 6, some 3⟩ none)
        (fun p => if p = 2 then .body ⟨some ["C", "D"], none, none, none⟩ none
          else .body ⟨some ["E", "F"], none, none, none⟩ none)
        [.main, .main, .main, .task 0, .task 1]).orders.Orders = ["E", "F"]
    ∧ (GetOrdersByMarket (.body ⟨some ["A", "B"], some 1, some 6, some 3⟩ none)
        (fun p => if p = 2 then .body ⟨some ["C", "D"], none, none, none⟩ none
          else .body ⟨some ["E", "F"], none, none, none⟩ none)
        [.main, .main, .main, .task 0, .task 1, .task 0]).tasks
      = [.sendRes ["E", "F"], .decoded 3]
    ∧ (GetOrdersByMarket (.body ⟨some ["A", "B"], some 1, some 6, some 3⟩ none)
        (fun p => if p = 2 then .body ⟨some ["C", "D"], some 2, some 6, some 3⟩ none
          else .body ⟨some ["E", "F"], some 3, some 6, some 3⟩ none)
        [.main, .main, .main, .task 0, .main]).main = .collect 3
    ∧ (GetOrdersByMarketLocalEnvelope (.body ⟨some ["A", "B"], some 1, some 6, some 3⟩ none)
        (fun p => if p = 2 then .body ⟨some ["C", "D"], none, none, none⟩ none
          else .body ⟨some ["E", "F"], none, none, none⟩ none)
        [.main, .main, .main, .task 0, .task 1, .task 0, .task 1, .main, .main, .recv 0,
          .main, .recv 1, .main]).main
      = .returned ["A", "B", "C", "D", "E", "F"] none
    ∧ (GetOrdersByMarket (.body ⟨some ["A", "B"], some 1, some 6, some 3⟩ none)
        (fun p => if p = 2 then .body ⟨some ["C", "D"], none, none, none⟩ none
          else .body ⟨some ["E", "F"], none, none, none⟩ none)
        [.main, .main, .main, .task 0, .task 1, .task 0, .task 1, .main, .main, .recv 0,
          .main, .recv 1, .main]).main
      = .returned ["A", "B", "E", "F", "E", "F"] none := by
  decide!
end Buda
